import Mathlib

/-!
# Verification of the styx-clarity-service proof engine

Shallow embedding of the repository's algorithmic core:

* `Styx.Sha` — the double-SHA-256 hash primitive (`@noble/hashes` sha256 as
  used by `hashPair` in `node_modules/clarity-bitcoin-client/dist/proof.js`),
  implemented bit-for-bit over byte lists so concrete hash values can be
  evaluated by the kernel.
* `Styx.Merkle` — `ensureEven`, `generateMerkleRoot`, `generateMerkleTree`,
  `generateMerkleProof`, `verifyMerkleProofHex` from
  `clarity-bitcoin-client/dist/proof.js` (shipped in this repository's
  `node_modules`).
* `Styx.Extract` — `extractProofInfo` from the same file, split into the
  `try`-block body (which can fail) and the exported function (whose `catch`
  swallows the failure and returns the initial empty object).
* `Styx.Server` — the pure helpers of `src/server.ts`
  (`parseKennyTransactionDataSimple`, `extractWitnessCommitment`,
  `splitIntoChunksSimple`, `splitIntoChunks`, the `formattedProof` assembly of
  `processKennyRequest`) and an event-loop model of the Kenny endpoints
  (`/api/proof-kenny`, `/api/proof-kenny-start`, `/api/proof-kenny-status`,
  cache-clear endpoints) with their four module-level maps.

Hex strings that only ever carry well-formed even-length hex (txids, merkle
roots, proof elements) are modelled as byte lists (`Hash`), since JS-side
`hex.encode`/`hex.decode` are mutually inverse on them.  Raw-transaction hex
handled character-by-character by `server.ts` is modelled as `List Char`.
-/

namespace Styx.Sha

/-- A byte string: list of naturals, each `< 256` in well-formed inputs. -/
abbrev Bytes := List Nat

/-- `2^32`, the word modulus of SHA-256. -/
def w32 : Nat := 4294967296

/-- 32-bit right rotation. -/
def rotr (n x : Nat) : Nat := ((x >>> n) ||| (x <<< (32 - n))) % w32

/-- SHA-256 `Ch(e,f,g) = (e ∧ f) ⊕ (¬e ∧ g)`. -/
def ch (e f g : Nat) : Nat := (e &&& f) ^^^ ((e ^^^ 4294967295) &&& g)

/-- SHA-256 `Maj(a,b,c)`. -/
def maj (a b c : Nat) : Nat := (a &&& b) ^^^ (a &&& c) ^^^ (b &&& c)

/-- Big sigma 0. -/
def bsig0 (x : Nat) : Nat := rotr 2 x ^^^ rotr 13 x ^^^ rotr 22 x

/-- Big sigma 1. -/
def bsig1 (x : Nat) : Nat := rotr 6 x ^^^ rotr 11 x ^^^ rotr 25 x

/-- Small sigma 0. -/
def ssig0 (x : Nat) : Nat := rotr 7 x ^^^ rotr 18 x ^^^ (x >>> 3)

/-- Small sigma 1. -/
def ssig1 (x : Nat) : Nat := rotr 17 x ^^^ rotr 19 x ^^^ (x >>> 10)

/-- The 64 SHA-256 round constants of FIPS 180-4, written in decimal. -/
def shaK : List Nat :=
  [1116352408, 1899447441, 3049323471, 3921009573, 961987163, 1508970993,
   2453635748, 2870763221, 3624381080, 310598401, 607225278, 1426881987,
   1925078388, 2162078206, 2614888103, 3248222580, 3835390401, 4022224774,
   264347078, 604807628, 770255983, 1249150122, 1555081692, 1996064986,
   2554220882, 2821834349, 2952996808, 3210313671, 3336571891, 3584528711,
   113926993, 338241895, 666307205, 773529912, 1294757372, 1396182291,
   1695183700, 1986661051, 2177026350, 2456956037, 2730485921, 2820302411,
   3259730800, 3345764771, 3516065817, 3600352804, 4094571909, 275423344,
   430227734, 506948616, 659060556, 883997877, 958139571, 1322822218,
   1537002063, 1747873779, 1955562222, 2024104815, 2227730452, 2361852424,
   2428436474, 2756734187, 3204031479, 3329325298]

/-- The initial SHA-256 state of FIPS 180-4, written in decimal. -/
def shaH0 : List Nat :=
  [1779033703, 3144134277, 1013904242, 2773480762,
   1359893119, 2600822924, 528734635, 1541459225]

/-- Group bytes into big-endian 32-bit words, four bytes per word. -/
def bytesToWords : Bytes → List Nat
  | b0 :: b1 :: b2 :: b3 :: rest => (((b0 * 256 + b1) * 256 + b2) * 256 + b3) :: bytesToWords rest
  | _ => []

/-- Extend a 16-word message block with `fuel` further schedule words. -/
def scheduleExt : Nat → List Nat → List Nat
  | 0, ws => ws
  | n + 1, ws =>
      let t := (ssig1 (ws.getD (ws.length - 2) 0) + ws.getD (ws.length - 7) 0 +
                ssig0 (ws.getD (ws.length - 15) 0) + ws.getD (ws.length - 16) 0) % w32
      scheduleExt n (ws ++ [t])

/-- One SHA-256 compression round on the 8-word working state. -/
def shaRound (st : List Nat) (kw : Nat × Nat) : List Nat :=
  match st with
  | [a, b, c, d, e, f, g, h] =>
      let t1 := (h + bsig1 e + ch e f g + kw.1 + kw.2) % w32
      let t2 := (bsig0 a + maj a b c) % w32
      [(t1 + t2) % w32, a, b, c, (d + t1) % w32, e, f, g]
  | other => other

/-- Compress one 64-byte block into the chaining state. -/
def compressBlock (h : List Nat) (block : Bytes) : List Nat :=
  let ws := scheduleExt 48 (bytesToWords block)
  let st := List.foldl shaRound h (List.zip shaK ws)
  List.zipWith (fun x y => (x + y) % w32) h st

/-- SHA-256 padding: `0x80`, zeros to 56 mod 64, 8-byte big-endian bit length. -/
def shaPad (msg : Bytes) : Bytes :=
  let l := msg.length
  let zeros := (119 - l % 64) % 64
  let bitLen := 8 * l
  msg ++ [0x80] ++ List.replicate zeros 0 ++
    (List.range 8).map (fun i => bitLen >>> (8 * (7 - i)) % 256)

/-- Split a byte string into 64-byte blocks.  Structural recursion on a fuel
bound so the kernel can evaluate digests; `fuel = l.length` always suffices
because each step consumes at least one byte. -/
def chunks64Go : Nat → Bytes → List Bytes
  | 0, _ => []
  | _, [] => []
  | fuel + 1, l => l.take 64 :: chunks64Go fuel (l.drop 64)

/-- Split a byte string into 64-byte blocks. -/
def chunks64 (l : Bytes) : List Bytes := chunks64Go l.length l

/-- Render a 32-bit word as four big-endian bytes. -/
def wordBytes (w : Nat) : Bytes := [w >>> 24 % 256, w >>> 16 % 256, w >>> 8 % 256, w % 256]

/-- SHA-256 of a byte string, as 32 bytes. -/
def sha256 (msg : Bytes) : Bytes :=
  ((chunks64 (shaPad msg)).foldl compressBlock shaH0).map wordBytes |>.flatten

example : sha256 [] =
    [0xe3, 0xb0, 0xc4, 0x42, 0x98, 0xfc, 0x1c, 0x14, 0x9a, 0xfb, 0xf4, 0xc8, 0x99, 0x6f, 0xb9, 0x24,
     0x27, 0xae, 0x41, 0xe4, 0x64, 0x9b, 0x93, 0x4c, 0xa4, 0x95, 0x99, 0x1b, 0x78, 0x52, 0xb8, 0x55] := by
  decide

example : sha256 [0x61, 0x62, 0x63] =
    [0xba, 0x78, 0x16, 0xbf, 0x8f, 0x01, 0xcf, 0xea, 0x41, 0x41, 0x40, 0xde, 0x5d, 0xae, 0x22, 0x23,
     0xb0, 0x03, 0x61, 0xa3, 0x96, 0x17, 0x7a, 0x9c, 0xb4, 0x10, 0xff, 0x61, 0xf2, 0x00, 0x15, 0xad] := by
  decide

end Styx.Sha

namespace Styx.Merkle

open Styx.Sha

/-- A 32-byte internal-order hash.  The JS code passes hex strings and
`hashPair` decodes/re-encodes them; since `hex.encode`/`hex.decode` are
mutually inverse we work directly on the decoded bytes.  The JS empty string
`""` corresponds to `[]`. -/
abbrev Hash := Bytes

/-- `hashPair` from proof.js: double SHA-256 of the concatenation. -/
def hashPair (a b : Hash) : Hash := sha256 (sha256 (a ++ b))

/-- `ensureEven` from proof.js: on an odd-length list, push a copy of the last
element.  (Both callers guard against the empty list; JS would push
`undefined` there, we append `[]` — the branch is unreachable.) -/
def ensureEven (hashes : List Hash) : List Hash :=
  if hashes.length % 2 ≠ 0 then hashes ++ [hashes.getLastD []] else hashes

/-- The `for (let i = 0; i < hashes.length; i += 2)` pairing loop shared by
`generateMerkleRoot` and `generateMerkleTree`.  It always runs on an
`ensureEven`-ed (even-length) list; a trailing unpaired element (impossible
there) is dropped rather than hashed with `undefined`. -/
def combinePairs : List Hash → List Hash
  | a :: b :: rest => hashPair a b :: combinePairs rest
  | _ => []

theorem combinePairs_length : ∀ l : List Hash, (combinePairs l).length = l.length / 2
  | [] => rfl
  | [_] => by simp [combinePairs]
  | _ :: _ :: rest => by
      simp only [combinePairs, List.length_cons, combinePairs_length rest]
      omega

theorem ensureEven_length (l : List Hash) :
    (ensureEven l).length = if l.length % 2 = 0 then l.length else l.length + 1 := by
  simp only [ensureEven]
  split <;> simp_all

theorem ensureEven_even (l : List Hash) : (ensureEven l).length % 2 = 0 := by
  rw [ensureEven_length]
  split <;> omega

theorem ensureEven_eq_append (l : List Hash) :
    ensureEven l = l ++ (if l.length % 2 = 0 then ([] : List Hash) else [l.getLastD []]) := by
  simp only [ensureEven]
  split <;> simp_all

/-- `generateMerkleRoot` from proof.js.  Empty input returns `""` (= `[]`).
Note the single-element case: `ensureEven` duplicates the lone leaf, so the
"root" of `[a]` is `hashPair a a`, not `a`. -/
def generateMerkleRoot (hashes : List Hash) : Hash :=
  if _h0 : hashes.length = 0 then []
  else
    let combined := combinePairs (ensureEven hashes)
    if _h1 : combined.length = 1 then combined.headD []
    else generateMerkleRoot combined
termination_by hashes.length
decreasing_by
  have h2 := combinePairs_length (ensureEven hashes)
  have h3 := ensureEven_length hashes
  simp only [combined] at _h1 ⊢
  split at h3 <;> omega

/-- The recursive `generate` of `generateMerkleTree` from proof.js, including
the in-place mutation by `ensureEven`: every level on which the pairing loop
ran is stored in its evened form; the final one-element level is stored as-is.
(The zero-length branch is unreachable — `generateMerkleTree` guards it, and
the JS `generate` would recurse forever on `[]`.) -/
def merkleLevels (hashes : List Hash) : List (List Hash) :=
  if _h1 : hashes.length = 1 then [hashes]
  else if _h0 : hashes.length = 0 then [hashes]
  else ensureEven hashes :: merkleLevels (combinePairs (ensureEven hashes))
termination_by hashes.length
decreasing_by
  have h2 := combinePairs_length (ensureEven hashes)
  have h3 := ensureEven_length hashes
  split at h3 <;> omega

/-- `generateMerkleTree` from proof.js. -/
def generateMerkleTree (hashes : List Hash) : List (List Hash) :=
  if hashes.length = 0 then [] else merkleLevels hashes

/-- JS array indexing `l[i]` with a possibly negative index: `undefined`
(modelled as `none`) when out of range. -/
def jsGet (l : List Hash) (i : Int) : Option Hash :=
  if h : 0 ≤ i ∧ i.toNat < l.length then some (l.get ⟨i.toNat, h.2⟩) else none

/-- JS `Array.prototype.findIndex`: first index whose element equals `x`,
`-1` when absent. -/
def jsFindIndex (l : List Hash) (x : Hash) : Int :=
  match l.findIdx? (· = x) with
  | some i => (i : Int)
  | none => -1

/-- The `for (let level = 0; level < treeDepth; level++)` loop of
`generateMerkleProof`: one iteration per tree level below the root.
JS `%` on a negative index is negative (never `0` for odd negatives), which
`Int.emod` matches on parity; `Math.floor(i / 2)` is `Int.fdiv`. -/
def buildProofAux : List (List Hash) → Int → List (Option Hash)
  | [], _ => []
  | lvl :: rest, hashIndex =>
      let siblingIndex := if hashIndex % 2 = 0 then hashIndex + 1 else hashIndex - 1
      let rest' := buildProofAux rest (Int.fdiv hashIndex 2)
      if siblingIndex < (lvl.length : Int) then jsGet lvl siblingIndex :: rest' else rest'

/-- The `{ merkleProof, treeDepth }` record returned by
`generateMerkleProof`.  Proof elements are `Option Hash` because JS can push
`undefined` (from an out-of-range sibling index) into the array. -/
structure MerkleProofResult where
  merkleProof : List (Option Hash)
  treeDepth : Nat
deriving DecidableEq, Repr

/-- `generateMerkleProof` from proof.js.  On empty input JS throws a
`TypeError` (`tree[0]` is `undefined`); the `Proof length mismatch` throw is
the explicit check at the end. -/
def generateMerkleProof (hash : Hash) (hashes : List Hash) :
    Except String MerkleProofResult :=
  let tree := generateMerkleTree hashes
  match tree with
  | [] => .error "TypeError: tree[0] is undefined"
  | l0 :: _ =>
    let treeDepth := tree.length - 1
    let merkleProof := buildProofAux tree.dropLast (jsFindIndex l0 hash)
    if merkleProof.length ≠ treeDepth then
      .error "Proof length mismatch"
    else
      .ok ⟨merkleProof, treeDepth⟩

/-- The verification loop of `verifyMerkleProofHex` from proof.js: at step
`i`, bit `i` of `txIndex` decides whether the current hash is the right or the
left operand. -/
def verifyFoldAux (current : Hash) (proof : List Hash) (txIndex : Nat) (i : Nat) : Hash :=
  match proof with
  | [] => current
  | p :: rest =>
      let combined := if (txIndex >>> i) % 2 = 1 then p ++ current else current ++ p
      verifyFoldAux (sha256 (sha256 combined)) rest txIndex (i + 1)

/-- `verifyMerkleProofHex` from proof.js: fold the leaf with the proof
elements and compare against the expected root. -/
def verifyMerkleProofHex (txHashHex : Hash) (proofHexArray : List Hash)
    (merkleRootHex : Hash) (txIndex : Nat) : Bool :=
  decide (verifyFoldAux txHashHex proofHexArray txIndex 0 = merkleRootHex)

end Styx.Merkle

namespace Styx.Merkle

open Styx.Sha

theorem generateMerkleRoot_single (a : Hash) : generateMerkleRoot [a] = hashPair a a := by
  rw [generateMerkleRoot]
  simp [ensureEven, combinePairs]

theorem generateMerkleTree_single (a : Hash) : generateMerkleTree [a] = [[a]] := by
  rw [generateMerkleTree]
  simp [merkleLevels]

theorem generateMerkleProof_single (a : Hash) : generateMerkleProof a [a] = .ok ⟨[], 0⟩ := by
  simp [generateMerkleProof, generateMerkleTree_single, buildProofAux, jsFindIndex]

theorem ensureEven_getD (l : List Hash) (i : Nat) (h : i < l.length) :
    (ensureEven l).getD i [] = l.getD i [] := by
  rw [ensureEven_eq_append]
  split
  · simp
  · exact List.getD_append _ _ _ _ h

theorem combinePairs_getD : ∀ (l : List Hash) (k : Nat), 2 * k + 1 < l.length →
    (combinePairs l).getD k [] = hashPair (l.getD (2 * k) []) (l.getD (2 * k + 1) [])
  | [], _, h => by simp at h
  | [_], _, h => by
      simp only [List.length_cons, List.length_nil] at h
      omega
  | _ :: _ :: rest, 0, _ => by simp [combinePairs]
  | a :: b :: rest, k + 1, h => by
      have h' : 2 * k + 1 < rest.length := by
        simp only [List.length_cons] at h; omega
      have e1 : 2 * (k + 1) = (2 * k) + 1 + 1 := by ring
      have e2 : 2 * (k + 1) + 1 = (2 * k + 1) + 1 + 1 := by ring
      rw [e2, e1]
      simp only [combinePairs, List.getD_cons_succ]
      exact combinePairs_getD rest k h'

theorem findIdx_nodup_aux : ∀ (l : List Hash) (i s : Nat), l.Nodup → i < l.length →
    List.findIdx? (· = l.getD i []) l s = some (s + i)
  | a :: tl, 0, s, _, _ => by
      rw [List.findIdx?_cons]
      simp
  | a :: tl, i + 1, s, hnd, hi => by
      have hi' : i < tl.length := by simp only [List.length_cons] at hi; omega
      have hmem : tl.getD i [] ∈ tl := by
        rw [List.getD_eq_getElem tl [] hi']
        exact List.getElem_mem hi'
      have hne : a ≠ tl.getD i [] := by
        intro he
        exact (List.nodup_cons.mp hnd).1 (he ▸ hmem)
      simp only [List.getD_cons_succ]
      rw [List.findIdx?_cons]
      rw [if_neg (by simpa using hne)]
      rw [findIdx_nodup_aux tl i (s + 1) (List.nodup_cons.mp hnd).2 hi']
      congr 1
      omega

theorem jsFindIndex_ensureEven (l : List Hash) (i : Nat) (hnd : l.Nodup) (hi : i < l.length) :
    jsFindIndex (ensureEven l) (l.getD i []) = (i : Int) := by
  unfold jsFindIndex
  have hfl : List.findIdx? (· = l.getD i []) l = some i := by
    simpa using findIdx_nodup_aux l i 0 hnd hi
  rw [ensureEven_eq_append, List.findIdx?_append, hfl]
  simp

/-- The sibling index selected by `generateMerkleProof` at a nonnegative
current index. -/
def natSibling (n : Nat) : Nat := if n % 2 = 0 then n + 1 else n - 1

theorem jsGet_natCast (l : List Hash) (n : Nat) (h : n < l.length) :
    jsGet l (n : Int) = some (l.getD n []) := by
  unfold jsGet
  rw [dif_pos ⟨Int.natCast_nonneg n, by simpa using h⟩]
  simp only [Int.toNat_natCast, List.get_eq_getElem, List.getD_eq_getElem l [] h]

theorem int_fdiv_natCast (n : Nat) : Int.fdiv (n : Int) 2 = ((n / 2 : Nat) : Int) := by
  rw [Int.fdiv_eq_tdiv (by positivity) (by norm_num)]
  rw [show ((2 : Int)) = ((2 : Nat) : Int) by norm_num, Int.ofNat_tdiv]

theorem buildProofAux_cons (lvl : List Hash) (rest : List (List Hash)) (n : Nat)
    (heven : lvl.length % 2 = 0) (hn : n < lvl.length) :
    buildProofAux (lvl :: rest) (n : Int) =
      some (lvl.getD (natSibling n) []) :: buildProofAux rest ((n / 2 : Nat) : Int) := by
  have hsib : natSibling n < lvl.length := by
    unfold natSibling; split <;> omega
  simp only [buildProofAux, int_fdiv_natCast]
  by_cases hpar : n % 2 = 0
  · have hcast : ((n : Int) + 1) = ((n + 1 : Nat) : Int) := by push_cast; ring
    rw [if_pos (by omega : (n : Int) % 2 = 0), hcast]
    rw [if_pos (by have := hsib; unfold natSibling at this; rw [if_pos hpar] at this; exact_mod_cast (by omega : ((n + 1 : Nat) : Int) < (lvl.length : Int)))]
    rw [jsGet_natCast lvl (n + 1) (by unfold natSibling at hsib; rwa [if_pos hpar] at hsib)]
    unfold natSibling
    rw [if_pos hpar]
  · have hn1 : 1 ≤ n := by omega
    have hcast : ((n : Int) - 1) = ((n - 1 : Nat) : Int) := by omega
    rw [if_neg (by omega : ¬ ((n : Int) % 2 = 0)), hcast]
    rw [if_pos (by exact_mod_cast (by omega : ((n - 1 : Nat) : Int) < (lvl.length : Int)))]
    rw [jsGet_natCast lvl (n - 1) (by omega)]
    unfold natSibling
    rw [if_neg hpar]

theorem verifyFoldAux_shift : ∀ (ps : List Hash) (x : Hash) (idx k : Nat),
    verifyFoldAux x ps idx (k + 1) = verifyFoldAux x ps (idx >>> 1) k
  | [], _, _, _ => rfl
  | p :: rest, x, idx, k => by
      simp only [verifyFoldAux]
      rw [show idx >>> (k + 1) = (idx >>> 1) >>> k by
        rw [Nat.add_comm k 1, Nat.shiftRight_add]]
      rw [verifyFoldAux_shift rest _ idx (k + 1)]

theorem verifyFoldAux_cons (x p : Hash) (rest : List Hash) (idx : Nat) :
    verifyFoldAux x (p :: rest) idx 0 =
      verifyFoldAux (if idx % 2 = 1 then hashPair p x else hashPair x p) rest (idx / 2) 0 := by
  simp only [verifyFoldAux, Nat.shiftRight_zero]
  rw [verifyFoldAux_shift, Nat.shiftRight_one]
  split <;> rfl

theorem pair_step (e : List Hash) (i : Nat) (heven : e.length % 2 = 0) (hi : i < e.length)
    (rest : List Hash) :
    verifyFoldAux (e.getD i []) (e.getD (natSibling i) [] :: rest) i 0 =
      verifyFoldAux ((combinePairs e).getD (i / 2) []) rest (i / 2) 0 := by
  rw [verifyFoldAux_cons]
  congr 1
  by_cases hpar : i % 2 = 1
  · rw [if_pos hpar]
    unfold natSibling
    rw [if_neg (by omega)]
    rw [combinePairs_getD e (i / 2) (by omega)]
    rw [show 2 * (i / 2) + 1 = i by omega, show 2 * (i / 2) = i - 1 by omega]
  · rw [if_neg hpar]
    unfold natSibling
    rw [if_pos (by omega)]
    rw [combinePairs_getD e (i / 2) (by omega)]
    rw [show 2 * (i / 2) + 1 = i + 1 by omega, show 2 * (i / 2) = i by omega]

theorem merkleLevels_ge2 (h : List Hash) (h2 : 2 ≤ h.length) :
    merkleLevels h = ensureEven h :: merkleLevels (combinePairs (ensureEven h)) := by
  rw [merkleLevels]
  rw [dif_neg (by omega), dif_neg (by omega)]

theorem merkleLevels_single (h : List Hash) (h1 : h.length = 1) : merkleLevels h = [h] := by
  rw [merkleLevels, dif_pos h1]

theorem merkleLevels_ne_nil (h : List Hash) : merkleLevels h ≠ [] := by
  rw [merkleLevels]
  split
  · simp
  · split
    · simp
    · simp

theorem generateMerkleRoot_eq_head (h : List Hash) (h0 : h.length ≠ 0)
    (h1 : (combinePairs (ensureEven h)).length = 1) :
    generateMerkleRoot h = (combinePairs (ensureEven h)).headD [] := by
  rw [generateMerkleRoot]
  simp only [dif_neg h0]
  rw [dif_pos h1]

theorem generateMerkleRoot_eq_rec (h : List Hash) (h0 : h.length ≠ 0)
    (h1 : (combinePairs (ensureEven h)).length ≠ 1) :
    generateMerkleRoot h = generateMerkleRoot (combinePairs (ensureEven h)) := by
  rw [generateMerkleRoot]
  simp only [dif_neg h0]
  rw [dif_neg h1]

end Styx.Merkle

namespace Styx.Merkle

open Styx.Sha

theorem proof_fold_main : ∀ (n : Nat) (h : List Hash), h.length = n → ∀ i : Nat,
    2 ≤ h.length → i < (ensureEven h).length →
    ∃ ps : List Hash,
      buildProofAux (merkleLevels h).dropLast (i : Int) = ps.map some ∧
      ps.length + 1 = (merkleLevels h).length ∧
      verifyFoldAux ((ensureEven h).getD i []) ps i 0 = generateMerkleRoot h := by
  intro n
  induction n using Nat.strong_induction_on with
  | _ n IH =>
    intro h hlen i h2 hi
    have heven := ensureEven_even h
    have hel := ensureEven_length h
    have hcl : (combinePairs (ensureEven h)).length = (ensureEven h).length / 2 :=
      combinePairs_length _
    rw [merkleLevels_ge2 h h2]
    by_cases hc1 : (combinePairs (ensureEven h)).length = 1
    · -- the combined level is the root: two levels in total
      have he2 : (ensureEven h).length = 2 := by split at hel <;> omega
      rw [merkleLevels_single _ hc1]
      rw [show ((ensureEven h :: [combinePairs (ensureEven h)]).dropLast) = [ensureEven h] by simp]
      refine ⟨[(ensureEven h).getD (natSibling i) []], ?_, by simp, ?_⟩
      · rw [buildProofAux_cons _ _ i heven hi]
        simp [buildProofAux]
      · rw [pair_step _ _ heven hi]
        rw [generateMerkleRoot_eq_head h (by omega) hc1]
        rw [show i / 2 = 0 by omega]
        match hc : combinePairs (ensureEven h) with
        | [] => rw [hc] at hc1; simp at hc1
        | x :: xs => simp [verifyFoldAux]
    · -- at least two combined hashes: recurse
      have hc2 : 2 ≤ (combinePairs (ensureEven h)).length := by
        split at hel <;> omega
      have hlt : (combinePairs (ensureEven h)).length < n := by
        split at hel <;> omega
      have hi2 : i / 2 < (combinePairs (ensureEven h)).length := by omega
      have hi2' : i / 2 < (ensureEven (combinePairs (ensureEven h))).length := by
        have := ensureEven_length (combinePairs (ensureEven h))
        split at this <;> omega
      obtain ⟨ps', hmap, hlen', hfold⟩ :=
        IH _ hlt (combinePairs (ensureEven h)) rfl (i / 2) hc2 hi2'
      refine ⟨(ensureEven h).getD (natSibling i) [] :: ps', ?_, ?_, ?_⟩
      · rw [List.dropLast_cons_of_ne_nil (merkleLevels_ne_nil _)]
        rw [buildProofAux_cons _ _ i heven hi]
        rw [hmap]
        simp
      · simp only [List.length_cons]
        omega
      · rw [pair_step _ _ heven hi]
        rw [ensureEven_getD _ _ hi2] at hfold
        rw [hfold]
        exact (generateMerkleRoot_eq_rec h (by omega) hc1).symm

end Styx.Merkle

namespace Styx.Merkle

open Styx.Sha

/-- C1 (amended): for every list of at least two pairwise-distinct leaves and
every valid index, `generateMerkleProof` succeeds with a proof of
`treeDepth`-many defined elements and `verifyMerkleProofHex` folds the leaf
with them back to `generateMerkleRoot`'s value.  (As frozen the claim fails:
for a singleton list the root is `hashPair a a ≠ a`, and `generateMerkleProof`
looks leaves up by value, so duplicate leaves verify against the wrong
index.) -/
theorem merkleProof_roundtrip (leaves : List Hash) (i : Nat) (h2 : 2 ≤ leaves.length)
    (hnd : leaves.Nodup) (hi : i < leaves.length) :
    ∃ ps : List Hash,
      generateMerkleProof (leaves.getD i []) leaves = .ok ⟨ps.map some, ps.length⟩ ∧
      verifyMerkleProofHex (leaves.getD i []) ps (generateMerkleRoot leaves) i = true := by
  have hiE : i < (ensureEven leaves).length := by
    have := ensureEven_length leaves; split at this <;> omega
  obtain ⟨ps, hbp, hlenps, hfold⟩ := proof_fold_main leaves.length leaves rfl i h2 hiE
  have hfind : jsFindIndex (ensureEven leaves) (leaves.getD i []) = (i : Int) :=
    jsFindIndex_ensureEven leaves i hnd hi
  have hlev : merkleLevels leaves =
      ensureEven leaves :: merkleLevels (combinePairs (ensureEven leaves)) :=
    merkleLevels_ge2 leaves h2
  have htree : generateMerkleTree leaves =
      ensureEven leaves :: merkleLevels (combinePairs (ensureEven leaves)) := by
    rw [generateMerkleTree, if_neg (by omega), hlev]
  refine ⟨ps, ?_, ?_⟩
  · unfold generateMerkleProof
    rw [htree]
    simp only []
    rw [← hlev, hfind, hbp]
    rw [if_neg (by simp only [List.length_map]; omega)]
    have hd : (merkleLevels leaves).length - 1 = ps.length := by omega
    rw [hd]
  · unfold verifyMerkleProofHex
    rw [ensureEven_getD _ _ hi] at hfold
    simp only [hfold, decide_eq_true_eq]

end Styx.Merkle

namespace Styx.Merkle

open Styx.Sha

/-- The all-zero 32-byte leaf used as a concrete input. -/
def zeros32 : Hash := List.replicate 32 0

set_option maxRecDepth 40000 in
/-- Counterexample for C3: `generateMerkleRoot` of the single all-zero leaf is
`doubleSHA256(leaf ‖ leaf)`, not the leaf itself. -/
theorem singleton_root_ne_leaf : generateMerkleRoot [zeros32] ≠ zeros32 := by
  rw [generateMerkleRoot_single]
  decide

set_option maxRecDepth 40000 in
/-- Counterexample for C1: on the singleton leaf list, the proof produced by
`generateMerkleProof` is empty, yet verifying it against
`generateMerkleRoot`'s value returns false, because the root pairs the lone
leaf with itself while the fold returns the leaf unchanged. -/
theorem singleton_verify_false :
    generateMerkleProof zeros32 [zeros32] = .ok ⟨[], 0⟩ ∧
    verifyMerkleProofHex zeros32 [] (generateMerkleRoot [zeros32]) 0 = false := by
  refine ⟨generateMerkleProof_single zeros32, ?_⟩
  rw [generateMerkleRoot_single]
  decide

end Styx.Merkle

namespace Styx.Extract

open Styx.Sha Styx.Merkle

/-- One entry of `pgd.block.txids`, as built by `getTxDataEfficiently` in
bitcoin.js: display-order txid/wtxid plus the segwit flag. -/
structure TxidEntry where
  txid : Hash
  wtxid : Hash
  segwit : Bool
deriving DecidableEq, Repr

/-- The `pgd.block` record consumed by `extractProofInfo`. -/
structure PgdBlock where
  txids : List TxidEntry
  header : String
  merkle_root : Hash
  height : Nat
deriving DecidableEq, Repr

/-- The `ProofGenerationData` record consumed by `extractProofInfo`. -/
structure Pgd where
  txId : Hash
  txhex : String
  ctxhex : String
  witnessReservedValue : Hash
  witnessMerkleRoot : Hash
  block : PgdBlock
deriving DecidableEq, Repr

/-- `reverseAndEven` from bitcoin.js: byte-reverse every id (hex-decode,
reverse, re-encode) and then `ensureEven` the list. -/
def reverseAndEven (txs : List Hash) : List Hash :=
  ensureEven (txs.map List.reverse)

/-- The messages thrown inside `extractProofInfo`'s try block. -/
inductive ExtractError
  | targetNotFound        -- "Target transaction not found in block"
  | indexNotFound         -- "Transaction not found in block!"
  | notFoundInMerkleTree  -- "Transaction not found in the merkle tree"
  | merkleRootMismatch    -- "extractProofInfo: merkleRoot mismatch"
  | proofError (msg : String)  -- thrown by generateMerkleProof
deriving DecidableEq, Repr

/-- The `transactionProofSet` record built by `extractProofInfo` on success. -/
structure TransactionProofSet where
  txId : Hash
  txId0Reversed : Hash
  txIdReversed : Hash
  wtxidR : Hash
  wtxid : Hash
  height : Nat
  txHex : String
  header : String
  txIndex : Nat
  treeDepth : Nat
  wproof : List (Option Hash)
  merkleRoot : Hash
  computedWtxidRoot : Option Hash
  witnessReservedValue : Option Hash
  witnessMerkleRoot : Option Hash
  ctxHex : String
  cproof : List (Option Hash)
  segwit : Bool
deriving DecidableEq, Repr

/-- JS falsiness of `l[i]` for an array of hex strings: `undefined` (index out
of range) and the empty string are the falsy cases. -/
def jsFalsyAt (l : List Hash) (i : Nat) : Bool := (l.getD i []).isEmpty

/-- The body of `extractProofInfo`'s try block (proof.js lines 13–104).
Every `throw new Error(...)` becomes an `ExtractError`.  The
`calculateWitnessCommitment` / `verifyWitnessCommitment` /
`verifyMerkleProofHex` calls whose results are only `console.log`-ged are
omitted: they affect no output.  When `segwit`, proof.js overwrites
`pgd.witnessReservedValue` with 32 zero bytes before building the result, so
the result's `witnessReservedValue` is always the zero hash there. -/
def extractProofInfoInner (pgd : Pgd) : Except ExtractError TransactionProofSet :=
  match pgd.block.txids.find? (fun o => o.txid = pgd.txId) with
  | none => .error .targetNotFound
  | some _ =>
    match pgd.block.txids.findIdx? (fun t => t.txid = pgd.txId) with
    | none => .error .indexNotFound
    | some txIndex =>
      let txids := pgd.block.txids.map (·.txid)
      let wtxids := pgd.block.txids.map (·.wtxid)
      let segwit := (pgd.block.txids.getD txIndex ⟨[], [], false⟩).segwit
      let reversedTxIds := reverseAndEven txids
      let reversedWTxIds := reverseAndEven wtxids
      let wtxid := wtxids.getD txIndex []
      let wtxidR := reversedWTxIds.getD txIndex []
      if jsFalsyAt reversedTxIds txIndex ∨ (segwit ∧ jsFalsyAt reversedWTxIds txIndex) then
        .error .notFoundInMerkleTree
      else
        let merkleRoot := generateMerkleRoot reversedTxIds
        let merkleHeaderRootLE := pgd.block.merkle_root.reverse
        if merkleHeaderRootLE ≠ merkleRoot then .error .merkleRootMismatch
        else
          let wtreeRes :=
            if segwit then
              generateMerkleProof (reversedWTxIds.getD txIndex []) reversedWTxIds
            else
              generateMerkleProof (reversedTxIds.getD txIndex []) reversedTxIds
          match wtreeRes with
          | .error e => .error (.proofError e)
          | .ok wtree =>
            match generateMerkleProof (reversedTxIds.getD 0 []) reversedTxIds with
            | .error e => .error (.proofError e)
            | .ok coinbaseProof =>
              if merkleHeaderRootLE ≠ merkleRoot then .error .merkleRootMismatch
              else
                .ok {
                  txId := pgd.txId
                  txId0Reversed := reversedTxIds.getD 0 []
                  txIdReversed := reversedTxIds.getD txIndex []
                  wtxidR := wtxidR
                  wtxid := wtxid
                  height := pgd.block.height
                  txHex := pgd.txhex
                  header := pgd.block.header
                  txIndex := txIndex
                  treeDepth := wtree.treeDepth
                  wproof := wtree.merkleProof
                  merkleRoot := merkleRoot
                  computedWtxidRoot :=
                    if segwit then some (generateMerkleRoot reversedWTxIds) else none
                  witnessReservedValue :=
                    if segwit then some (List.replicate 32 0) else none
                  witnessMerkleRoot := if segwit then some pgd.witnessMerkleRoot else none
                  ctxHex := pgd.ctxhex
                  cproof := coinbaseProof.merkleProof
                  segwit := segwit
                }

/-- The exported `extractProofInfo`: its `catch` block logs the error and the
function returns the initial empty object `{}` (modelled as `none`), so no
internal failure ever propagates to the caller. -/
def extractProofInfo (pgd : Pgd) : Option TransactionProofSet :=
  match extractProofInfoInner pgd with
  | .ok t => some t
  | .error _ => none

/-- A concrete one-transaction block whose transaction list does not contain
the requested txid. -/
def pgdAbsent : Pgd :=
  { txId := [0xbb]
    txhex := ""
    ctxhex := ""
    witnessReservedValue := List.replicate 32 0
    witnessMerkleRoot := List.replicate 32 0
    block :=
      { txids := [{ txid := [0xaa], wtxid := [0xaa], segwit := false }]
        header := ""
        merkle_root := []
        height := 0 } }

/-- Counterexample for C2: with the target txid absent, the try-block raises
`TransactionNotInBlock` but `extractProofInfo` returns the empty object
normally — the failure never reaches the caller. -/
theorem pgdAbsent_swallowed :
    extractProofInfoInner pgdAbsent = .error .targetNotFound ∧
    extractProofInfo pgdAbsent = none := by
  constructor <;> rfl

theorem extract_target_not_found (pgd : Pgd)
    (habs : ∀ e ∈ pgd.block.txids, e.txid ≠ pgd.txId) :
    extractProofInfoInner pgd = .error .targetNotFound ∧
    extractProofInfo pgd = none := by
  have hfind : pgd.block.txids.find? (fun o => decide (o.txid = pgd.txId)) = none := by
    rw [List.find?_eq_none]
    intro x hx
    simpa using habs x hx
  have hinner : extractProofInfoInner pgd = .error .targetNotFound := by
    unfold extractProofInfoInner
    rw [hfind]
  exact ⟨hinner, by unfold extractProofInfo; rw [hinner]⟩

theorem extract_swallows_all (pgd : Pgd) (e : ExtractError)
    (herr : extractProofInfoInner pgd = .error e) :
    extractProofInfo pgd = none := by
  unfold extractProofInfo
  rw [herr]

end Styx.Extract

namespace Styx.Server

/-!  Pure helpers of `src/server.ts`, modelled over `List Char` (one entry per
JS string character).  JS `NaN` (from `parseInt` on a non-numeric slice) is
modelled as `none : Option Nat`; arithmetic on it stays `none` and
`String.prototype.slice` coerces it to `0`, as `ToIntegerOrInfinity` does. -/

/-- Hex value of one character, `none` for a non-hex character. -/
def hexVal (c : Char) : Option Nat :=
  if '0' ≤ c ∧ c ≤ '9' then some (c.toNat - '0'.toNat)
  else if 'a' ≤ c ∧ c ≤ 'f' then some (c.toNat - 'a'.toNat + 10)
  else if 'A' ≤ c ∧ c ≤ 'F' then some (c.toNat - 'A'.toNat + 10)
  else none

def isHexDigitChar (c : Char) : Bool := (hexVal c).isSome

def jsParseIntHexAux : List Char → Nat → Nat
  | [], acc => acc
  | c :: rest, acc =>
      match hexVal c with
      | some v => jsParseIntHexAux rest (acc * 16 + v)
      | none => acc

/-- JS `parseInt(s, 16)` on the hex-digit strings this server slices up:
value of the longest hex-digit prefix, `NaN` (= `none`) when there is none.
(Full `parseInt` also skips leading whitespace, a sign and an `0x` prefix;
none of those can occur in the slices of a hex string parsed here.) -/
def jsParseIntHex (s : List Char) : Option Nat :=
  match s with
  | [] => none
  | c :: rest =>
      match hexVal c with
      | some v => some (jsParseIntHexAux rest v)
      | none => none

/-- `ToIntegerOrInfinity`: `NaN` coerces to `0` in `slice` arguments. -/
def jsToInt : Option Nat → Nat
  | none => 0
  | some n => n

/-- `s.slice(start, stop)` for nonnegative arguments. -/
def jsSliceChars (s : List Char) (start stop : Nat) : List Char :=
  (s.take stop).drop start

/-- `s.slice(start, stop)` where either argument may be `NaN`. -/
def jsSliceO (s : List Char) (start stop : Option Nat) : List Char :=
  jsSliceChars s (jsToInt start) (jsToInt stop)

/-- `NaN`-propagating `offset + k`. -/
def nanAdd : Option Nat → Nat → Option Nat
  | none, _ => none
  | some a, b => some (a + b)

/-- `NaN`-propagating `offset + x`. -/
def nanAddO : Option Nat → Option Nat → Option Nat
  | none, _ => none
  | _, none => none
  | some a, some b => some (a + b)

/-- `NaN`-propagating `x * k`. -/
def nanMul : Option Nat → Nat → Option Nat
  | none, _ => none
  | some a, b => some (a * b)

/-- `for (let i = 0; i < count; i++)` runs zero times when `count` is `NaN`. -/
def jsLoopCount : Option Nat → Nat
  | none => 0
  | some n => n

/-- `offset < bound` is false when `offset` is `NaN`. -/
def nanLt : Option Nat → Nat → Bool
  | none, _ => false
  | some a, b => a < b

structure KOutpoint where
  hash : List Char
  index : List Char
deriving DecidableEq, Repr

structure KInput where
  outpoint : KOutpoint
  scriptSig : List Char
  sequence : List Char
deriving DecidableEq, Repr

structure KOutput where
  value : List Char
  scriptPubKey : List Char
deriving DecidableEq, Repr

structure KParsedTx where
  version : List Char
  ins : List KInput
  outs : List KOutput
  locktime : List Char
deriving DecidableEq, Repr

structure KParseResult where
  wtx : KParsedTx
  witnessData : List Char
deriving DecidableEq, Repr

/-- The input-parsing loop of `parseKennyTransactionDataSimple`. -/
def parseInputsGo (s : List Char) : Nat → Option Nat → List KInput × Option Nat
  | 0, offset => ([], offset)
  | n + 1, offset =>
      let prevHash := jsSliceO s offset (nanAdd offset 64)
      let o1 := nanAdd offset 64
      let prevIndex := jsSliceO s o1 (nanAdd o1 8)
      let o2 := nanAdd o1 8
      let scriptLen := jsParseIntHex (jsSliceO s o2 (nanAdd o2 2))
      let o3 := nanAdd o2 2
      let script := jsSliceO s o3 (nanAddO o3 (nanMul scriptLen 2))
      let o4 := nanAddO o3 (nanMul scriptLen 2)
      let sequence := jsSliceO s o4 (nanAdd o4 8)
      let o5 := nanAdd o4 8
      let inp : KInput :=
        { outpoint := { hash := '0' :: 'x' :: prevHash, index := '0' :: 'x' :: prevIndex }
          scriptSig := '0' :: 'x' :: script
          sequence := '0' :: 'x' :: sequence }
      let (rest, o6) := parseInputsGo s n o5
      (inp :: rest, o6)

/-- The output-parsing loop of `parseKennyTransactionDataSimple`. -/
def parseOutputsGo (s : List Char) : Nat → Option Nat → List KOutput × Option Nat
  | 0, offset => ([], offset)
  | n + 1, offset =>
      let value := jsSliceO s offset (nanAdd offset 16)
      let o1 := nanAdd offset 16
      let scriptLen := jsParseIntHex (jsSliceO s o1 (nanAdd o1 2))
      let o2 := nanAdd o1 2
      let script := jsSliceO s o2 (nanAddO o2 (nanMul scriptLen 2))
      let o3 := nanAddO o2 (nanMul scriptLen 2)
      let outp : KOutput :=
        { value := '0' :: 'x' :: value, scriptPubKey := '0' :: 'x' :: script }
      let (rest, o4) := parseOutputsGo s n o3
      (outp :: rest, o4)

/-- `parseKennyTransactionDataSimple` from server.ts.  No slice or `parseInt`
can throw, so the function returns on every input — truncated ones included —
assembling its fields from empty or clamped slices. -/
def parseKennyTransactionDataSimple (combinedTxHex : List Char) : KParseResult :=
  let cleanHex :=
    if combinedTxHex.take 2 = ['0', 'x'] then combinedTxHex.drop 2 else combinedTxHex
  let offset : Option Nat := some 0
  let version := jsSliceO cleanHex offset (nanAdd offset 8)
  let o1 := nanAdd offset 8
  let marker := jsSliceO cleanHex o1 (nanAdd o1 2)
  let flag := jsSliceO cleanHex (nanAdd o1 2) (nanAdd o1 4)
  let isSegwit := marker == ['0', '0'] && flag == ['0', '1']
  let o2 := if isSegwit then nanAdd o1 4 else o1
  let inputCount := jsParseIntHex (jsSliceO cleanHex o2 (nanAdd o2 2))
  let o3 := nanAdd o2 2
  let (inputs, o4) := parseInputsGo cleanHex (jsLoopCount inputCount) o3
  let outputCount := jsParseIntHex (jsSliceO cleanHex o4 (nanAdd o4 2))
  let o5 := nanAdd o4 2
  let (outputs, o6) := parseOutputsGo cleanHex (jsLoopCount outputCount) o5
  let witnessData :=
    if isSegwit && nanLt o6 (cleanHex.length - 8) then
      '0' :: 'x' :: jsSliceO cleanHex o6 (some (cleanHex.length - 8))
    else ['0', 'x']
  let locktime := '0' :: 'x' :: cleanHex.drop (cleanHex.length - 8)
  { wtx :=
      { version := '0' :: 'x' :: version
        ins := inputs
        outs := outputs
        locktime := locktime }
    witnessData := witnessData }

/-- Does `/aa21a9ed([0-9a-fA-F]{64})/i` match at the head of `s`? -/
def matchCommitmentAt (s : List Char) : Option (List Char) :=
  if (s.take 8).map Char.toLower = ['a', 'a', '2', '1', 'a', '9', 'e', 'd'] ∧
     64 ≤ (s.drop 8).length ∧ ((s.drop 8).take 64).all isHexDigitChar then
    some ((s.drop 8).take 64)
  else none

/-- Leftmost match of `/aa21a9ed([0-9a-fA-F]{64})/i`, scanning left to right
as `String.prototype.match` does. -/
def findCommitment : List Char → Option (List Char)
  | [] => none
  | c :: rest =>
      match matchCommitmentAt (c :: rest) with
      | some cap => some cap
      | none => findCommitment rest

/-- The all-zero 64-char placeholder commitment. -/
def zeros64Chars : List Char := List.replicate 64 '0'

/-- `extractWitnessCommitment` from server.ts: first regex match of
`aa21a9ed` + 64 hex chars anywhere in the string (at any character offset,
byte-aligned or not), lowercased; `null` when absent or all zero. -/
def extractWitnessCommitment (coinbaseTxHex : List Char) : Option (List Char) :=
  match findCommitment coinbaseTxHex with
  | some cap =>
      let witnessCommitment := cap.map Char.toLower
      if witnessCommitment ≠ zeros64Chars then some witnessCommitment else none
  | none => none

/-- The chunking loop of `splitIntoChunksSimple`: 64-char chunks, a shorter
trailing chunk is dropped.  Structural on fuel; `fuel = s.length` suffices. -/
def splitIntoChunksSimpleGo : Nat → List Char → List (List Char)
  | 0, _ => []
  | _, [] => []
  | fuel + 1, s =>
      let chunk := s.take 64
      let rest := splitIntoChunksSimpleGo fuel (s.drop 64)
      if chunk.length = 64 then chunk :: rest else rest

/-- `splitIntoChunksSimple` from server.ts ("no forced padding"). -/
def splitIntoChunksSimple (hexString : List Char) : List (List Char) :=
  let cleanHex := if hexString.take 2 = ['0', 'x'] then hexString.drop 2 else hexString
  splitIntoChunksSimpleGo cleanHex.length cleanHex

/-- The chunking loop of `splitIntoChunks`: a shorter trailing chunk is padded
with `'0'` to 64 chars. -/
def splitIntoChunksGo : Nat → List Char → List (List Char)
  | 0, _ => []
  | _, [] => []
  | fuel + 1, s =>
      let chunk := s.take 64
      let rest := splitIntoChunksGo fuel (s.drop 64)
      if chunk.length = 64 then chunk :: rest
      else if 0 < chunk.length then (chunk ++ List.replicate (64 - chunk.length) '0') :: rest
      else rest

/-- `splitIntoChunks` from server.ts (the padding variant; defined but not on
the `processKennyRequest` emission path). -/
def splitIntoChunks (hexString : List Char) : List (List Char) :=
  let cleanHex := if hexString.take 2 = ['0', 'x'] then hexString.drop 2 else hexString
  splitIntoChunksGo cleanHex.length cleanHex

/-- The fields of Kenny's `bitcoinTxProof` result that `processKennyRequest`
reads. -/
structure KennyProofResult where
  blockHeight : Nat
  blockHeader : List Char
  txIndex : Nat
  merkleProofDepth : Nat
  witnessMerkleProof : List Char
  coinbaseMerkleProof : List Char
  transaction : List Char
  coinbaseTransaction : List Char
  witnessReservedValue : List Char
deriving DecidableEq, Repr

/-- The `formattedProof` object emitted by `processKennyRequest`. -/
structure FormattedProof where
  segwit : Bool
  height : Nat
  header : List Char
  txIndex : Nat
  treeDepth : Nat
  wproof : List (List Char)
  computedWtxidRoot : List Char
  ctxHex : List Char
  cproof : List (List Char)
  wtx : KParsedTx
  witnessData : List Char
deriving DecidableEq, Repr

/-- The pure tail of `processKennyRequest` (server.ts lines 1215–1264): after
Kenny's `bitcoinTxProof` returns, find the witness root (extracted commitment,
else `witnessReservedValue`, else zeros — empty string is falsy), parse the
transaction, split both proofs into chunks and assemble `formattedProof`.  The
subsequent `verifyKennyProofData` result is only logged; the object is
returned unconditionally, with no check of chunk count against `treeDepth`. -/
def buildFormattedProof (proof : KennyProofResult) : FormattedProof :=
  let witnessRoot :=
    match extractWitnessCommitment proof.coinbaseTransaction with
    | some w => w
    | none => if proof.witnessReservedValue.isEmpty then zeros64Chars
              else proof.witnessReservedValue
  let parsed := parseKennyTransactionDataSimple proof.transaction
  { segwit := true
    height := proof.blockHeight
    header := proof.blockHeader
    txIndex := proof.txIndex
    treeDepth := proof.merkleProofDepth
    wproof := splitIntoChunksSimple proof.witnessMerkleProof
    computedWtxidRoot := witnessRoot
    ctxHex := proof.coinbaseTransaction
    cproof := splitIntoChunksSimple proof.coinbaseMerkleProof
    wtx := parsed.wtx
    witnessData := parsed.witnessData }

end Styx.Server

namespace Styx.Server

/-- C7 (amended): `parseKennyTransactionDataSimple` has no failure path — on
every 8-character (version-only, truncated) input it returns normally, the
counts parse to `NaN`, the loops run zero times, and the whole input is
reported as both version and locktime. -/
theorem parse_len8 (s : List Char) (hlen : s.length = 8) (hnx : ¬ s.take 2 = ['0', 'x']) :
    parseKennyTransactionDataSimple s =
      { wtx := { version := '0' :: 'x' :: s, ins := [], outs := [],
                 locktime := '0' :: 'x' :: s }
        witnessData := ['0', 'x'] } := by
  match s, hlen with
  | [a, b, c, d, e, f, g, h], _ =>
    simp only [parseKennyTransactionDataSimple]
    rw [if_neg hnx]
    rfl

/-- Counterexample for C7: the truncated raw transaction `01000000` (version
field only) parses without any error into a partially-filled record, the
whole input doubling as its own locktime. -/
theorem parse_version_only :
    parseKennyTransactionDataSimple ['0', '1', '0', '0', '0', '0', '0', '0'] =
      { wtx := { version := ['0', 'x', '0', '1', '0', '0', '0', '0', '0', '0'], ins := [],
                 outs := [], locktime := ['0', 'x', '0', '1', '0', '0', '0', '0', '0', '0'] }
        witnessData := ['0', 'x'] } := by
  rfl

end Styx.Server

namespace Styx.Server

/-- Occurrence test for a character sequence (used to state that the full
`6a24aa21a9ed` marker is absent from a counterexample input). -/
def containsSeq (pat : List Char) : List Char → Bool
  | [] => pat == []
  | c :: rest => ((c :: rest).take pat.length == pat) || containsSeq pat rest

/-- `aa21a9ed` followed by 64 `'1'`s: the commitment header without the
`6a24` OP_RETURN prefix the spec requires. -/
def c8input : List Char := ['a', 'a', '2', '1', 'a', '9', 'e', 'd'] ++ List.replicate 64 '1'

/-- Counterexample for C8: an input holding `aa21a9ed` + 64 ones but NOT the
full `6a24aa21a9ed` marker still yields a commitment, where the claim says
`NotFound`. -/
theorem c8input_extracts :
    extractWitnessCommitment c8input = some (List.replicate 64 '1') ∧
    containsSeq ['6', 'a', '2', '4', 'a', 'a', '2', '1', 'a', '9', 'e', 'd'] c8input = false := by
  constructor <;> rfl

theorem findCommitment_none (s : List Char)
    (habs : ∀ i, ((s.drop i).take 8).map Char.toLower ≠ ['a', 'a', '2', '1', 'a', '9', 'e', 'd']) :
    findCommitment s = none := by
  induction s with
  | nil => rfl
  | cons c rest ih =>
      rw [findCommitment]
      have h0 := habs 0
      simp only [List.drop_zero] at h0
      rw [matchCommitmentAt, if_neg (by intro hand; exact h0 hand.1)]
      exact ih (fun i => by simpa using habs (i + 1))

theorem findCommitment_shape : ∀ (s : List Char) (cap : List Char),
    findCommitment s = some cap → cap.length = 64 ∧ cap.all isHexDigitChar = true
  | [], _, h => by simp [findCommitment] at h
  | c :: rest, cap, h => by
      rw [findCommitment] at h
      cases hm : matchCommitmentAt (c :: rest) with
      | some cap' =>
          rw [hm] at h
          simp only [Option.some.injEq] at h
          subst h
          unfold matchCommitmentAt at hm
          split at hm
          · rename_i hcond
            simp only [Option.some.injEq] at hm
            subst hm
            have h64 := hcond.2.1
            exact ⟨by simp only [List.length_take]; omega, hcond.2.2⟩
          · simp at hm
      | none =>
          rw [hm] at h
          exact findCommitment_shape rest cap h

theorem extractWitnessCommitment_shape (s : List Char) (cap : List Char)
    (h : extractWitnessCommitment s = some cap) :
    cap.length = 64 ∧ cap ≠ zeros64Chars ∧
    ∃ raw : List Char, raw.length = 64 ∧ raw.all isHexDigitChar = true ∧ cap = raw.map Char.toLower := by
  unfold extractWitnessCommitment at h
  cases hf : findCommitment s with
  | none => rw [hf] at h; simp at h
  | some raw =>
      rw [hf] at h
      obtain ⟨hl, hhex⟩ := findCommitment_shape s raw hf
      simp only [] at h
      split at h
      · rename_i hnz
        simp only [Option.some.injEq] at h
        subst h
        exact ⟨by simp [hl], hnz, raw, hl, hhex, rfl⟩
      · simp at h

theorem extractWitnessCommitment_marker (commit post : List Char)
    (hlen : commit.length = 64) (hhex : commit.all isHexDigitChar = true)
    (hnz : commit.map Char.toLower ≠ zeros64Chars) :
    extractWitnessCommitment
        (['6', 'a', '2', '4', 'a', 'a', '2', '1', 'a', '9', 'e', 'd'] ++ commit ++ post) =
      some (commit.map Char.toLower) := by
  have hm0 : matchCommitmentAt
      ('6' :: 'a' :: '2' :: '4' :: 'a' :: 'a' :: '2' :: '1' :: 'a' :: '9' :: 'e' :: 'd' ::
        (commit ++ post)) = none := rfl
  have hm1 : matchCommitmentAt
      ('a' :: '2' :: '4' :: 'a' :: 'a' :: '2' :: '1' :: 'a' :: '9' :: 'e' :: 'd' ::
        (commit ++ post)) = none := rfl
  have hm2 : matchCommitmentAt
      ('2' :: '4' :: 'a' :: 'a' :: '2' :: '1' :: 'a' :: '9' :: 'e' :: 'd' ::
        (commit ++ post)) = none := rfl
  have hm3 : matchCommitmentAt
      ('4' :: 'a' :: 'a' :: '2' :: '1' :: 'a' :: '9' :: 'e' :: 'd' ::
        (commit ++ post)) = none := rfl
  have htake : (commit ++ post).take 64 = commit := by
    rw [← hlen, List.take_left]
  have hm4 : matchCommitmentAt
      ('a' :: 'a' :: '2' :: '1' :: 'a' :: '9' :: 'e' :: 'd' :: (commit ++ post)) =
      some commit := by
    rw [matchCommitmentAt]
    rw [if_pos ⟨rfl,
      (by show (64 : Nat) ≤ (commit ++ post).length
          simp [List.length_append, hlen]),
      (by show ((commit ++ post).take 64).all isHexDigitChar = true
          rw [htake]; exact hhex)⟩]
    show some ((commit ++ post).take 64) = some commit
    rw [htake]
  unfold extractWitnessCommitment
  rw [show (['6', 'a', '2', '4', 'a', 'a', '2', '1', 'a', '9', 'e', 'd'] ++ commit ++ post) =
      ('6' :: 'a' :: '2' :: '4' :: 'a' :: 'a' :: '2' :: '1' :: 'a' :: '9' :: 'e' :: 'd' ::
        (commit ++ post)) from by simp]
  rw [findCommitment, hm0, findCommitment, hm1, findCommitment, hm2, findCommitment, hm3,
      findCommitment, hm4]
  show (if commit.map Char.toLower ≠ zeros64Chars then some (commit.map Char.toLower)
        else none) = some (commit.map Char.toLower)
  rw [if_pos hnz]

end Styx.Server

namespace Styx.Server

theorem splitIntoChunksSimpleGo_mem : ∀ (fuel : Nat) (s c : List Char),
    c ∈ splitIntoChunksSimpleGo fuel s → c.length = 64
  | 0, _, _, h => by simp [splitIntoChunksSimpleGo] at h
  | fuel + 1, [], _, h => by simp [splitIntoChunksSimpleGo] at h
  | fuel + 1, c0 :: s0, c, h => by
      simp only [splitIntoChunksSimpleGo] at h
      split at h
      · rename_i hlen
        rcases List.mem_cons.mp h with h1 | h1
        · rw [h1]; exact hlen
        · exact splitIntoChunksSimpleGo_mem fuel _ c h1
      · exact splitIntoChunksSimpleGo_mem fuel _ c h

theorem splitIntoChunksSimple_mem (s c : List Char) (h : c ∈ splitIntoChunksSimple s) :
    c.length = 64 := by
  unfold splitIntoChunksSimple at h
  exact splitIntoChunksSimpleGo_mem _ _ c h

theorem splitIntoChunksSimpleGo_length : ∀ (fuel : Nat) (s : List Char),
    s.length ≤ fuel → (splitIntoChunksSimpleGo fuel s).length = s.length / 64
  | 0, s, h => by
      have : s = [] := List.length_eq_zero.mp (by omega)
      subst this
      rfl
  | fuel + 1, [], _ => rfl
  | fuel + 1, c0 :: s0, h => by
      simp only [splitIntoChunksSimpleGo]
      have hrec := splitIntoChunksSimpleGo_length fuel ((c0 :: s0).drop 64)
        (by simp only [List.length_drop]; simp only [List.length_cons] at h ⊢; omega)
      split
      · rename_i hlen
        simp only [List.length_take] at hlen
        simp only [List.length_cons, hrec, List.length_drop] at *
        omega
      · rename_i hlen
        simp only [List.length_take] at hlen
        have hlt : (c0 :: s0).length < 64 := by
          simp only [List.length_cons] at *
          omega
        have hdrop : (c0 :: s0).drop 64 = [] := by
          rw [List.drop_eq_nil_iff]
          omega
        rw [hdrop] at hrec
        rw [hdrop, hrec]
        simp only [List.length_cons] at hlt
        simp only [List.length_nil, List.length_cons]
        omega

theorem splitIntoChunksSimple_length (s : List Char) (hnx : ¬ s.take 2 = ['0', 'x']) :
    (splitIntoChunksSimple s).length = s.length / 64 := by
  unfold splitIntoChunksSimple
  rw [if_neg hnx]
  exact splitIntoChunksSimpleGo_length s.length s (le_refl _)

theorem buildFormattedProof_emits (kp : KennyProofResult) :
    (buildFormattedProof kp).wproof = splitIntoChunksSimple kp.witnessMerkleProof ∧
    (buildFormattedProof kp).cproof = splitIntoChunksSimple kp.coinbaseMerkleProof ∧
    (buildFormattedProof kp).treeDepth = kp.merkleProofDepth := ⟨rfl, rfl, rfl⟩

/-- A Kenny result whose reported depth is 2 but whose witness proof holds a
single 32-byte element. -/
def kpShort : KennyProofResult :=
  { blockHeight := 1
    blockHeader := []
    txIndex := 0
    merkleProofDepth := 2
    witnessMerkleProof := List.replicate 64 'a'
    coinbaseMerkleProof := []
    transaction := ['0', '1', '0', '0', '0', '0', '0', '0']
    coinbaseTransaction := []
    witnessReservedValue := [] }

/-- Counterexample for C9: a Kenny result with `merkleProofDepth = 2` but a
one-chunk witness proof is emitted as-is — `formattedProof` carries 1 chunk
against `treeDepth = 2`, with no rejection before transmission. -/
theorem kpShort_emitted_short :
    (buildFormattedProof kpShort).wproof.length = 1 ∧
    (buildFormattedProof kpShort).treeDepth = 2 := by
  constructor <;> rfl

end Styx.Server

namespace Styx.Server

/-!  Event-loop model of the Kenny endpoints of server.ts.

Node runs each handler's synchronous segment atomically: from the start of the
handler to its first `await` (or its `res.json`) no other request handler can
interleave, and `processKennyRequest(txid)` runs synchronously only up to its
first `await` before the handler continues to `ongoingKennyRequests.set`.
Promise continuations (`.then`/`.catch`/`.finally` and resumed `await`s) are
microtasks and all run before any later request's handler segment.  The model
therefore has one atomic step per handler segment and one per promise
settlement; `executionsFor`/`inFlightFor` instrument how many times
`processKennyRequest` was invoked per key and how many of those invocations
have not yet settled. -/

abbrev Txid := String
abbrev CallerId := String
abbrev JobId := String

/-- Opaque payload of a completed Kenny proof (the `formattedProof` value). -/
abbrev ProofValue := String

/-- `KENNY_RATE_LIMIT` (server.ts line 894). -/
def KENNY_RATE_LIMIT : Nat := 5

/-- `KENNY_RATE_WINDOW` in milliseconds (server.ts line 895). -/
def KENNY_RATE_WINDOW : Nat := 3600000

/-- One `kennyRequestTracker` entry. -/
structure RateEntry where
  count : Nat
  resetTime : Nat
deriving DecidableEq, Repr

inductive JobStatus
  | processing
  | completed
  | failed
deriving DecidableEq, Repr

/-- One `kennyJobs` entry. -/
structure JobRecord where
  status : JobStatus
  startTime : Nat
  result : Option ProofValue
  error : Option String
deriving DecidableEq, Repr

/-- Which handler started an in-flight `processKennyRequest` promise, hence
which continuations are attached to it. -/
inductive PromiseSource
  | getStarter (caller : CallerId)
  | postJob (jobId : JobId)
deriving DecidableEq, Repr

structure PromiseInfo where
  txid : Txid
  source : PromiseSource
deriving DecidableEq, Repr

/-- The responses the modelled endpoints can send. -/
inductive KennyResponse
  | rateLimited (retryAfter : Nat)
  | ok (v : ProofValue)
  | err (msg : String)
  | startCompleted (jobId : JobId) (v : ProofValue)
  | startProcessingExisting (jobId : JobId)
  | startProcessing (jobId : JobId)
  | statusNotFound (jobId : JobId)
  | status (jobId : JobId) (st : JobStatus) (runtime : Nat)
      (result : Option ProofValue) (error : Option String)
  | cacheCleared (txid : Txid)
  | allCleared
deriving DecidableEq, Repr

/-- Pointwise update of a map modelled as a function. -/
def upd {K V : Type} [DecidableEq K] (m : K → Option V) (k : K) (v : Option V) :
    K → Option V :=
  fun k' => if k' = k then v else m k'

/-- The module-level mutable state of server.ts (lines 19–31), the pending
promises, the deferred (awaiting) GET callers, the responses sent so far, and
the execution instrumentation. -/
structure ServerState where
  kennyProofCache : Txid → Option ProofValue
  ongoingKennyRequests : Txid → Option Nat
  kennyRequestTracker : String → Option RateEntry
  kennyJobs : JobId → Option JobRecord
  promiseInfo : Nat → Option PromiseInfo
  nextPromiseId : Nat
  waiters : List (Nat × CallerId)
  responses : List (CallerId × KennyResponse)
  executionsFor : Txid → Nat
  inFlightFor : Txid → Nat

/-- STEPS 2–4 of `/api/proof-kenny/:txid` (server.ts lines 1031–1076): cache
check, attach to an ongoing request, else invoke `processKennyRequest` and
record it as ongoing.  The starter and attached callers respond at
settlement. -/
def getKennyAfterRate (s : ServerState) (caller : CallerId) (txid : Txid) : ServerState :=
  match s.kennyProofCache txid with
  | some v => { s with responses := s.responses ++ [(caller, .ok v)] }
  | none =>
      match s.ongoingKennyRequests txid with
      | some pid => { s with waiters := s.waiters ++ [(pid, caller)] }
      | none =>
          let pid := s.nextPromiseId
          { s with
            ongoingKennyRequests := upd s.ongoingKennyRequests txid (some pid)
            promiseInfo := upd s.promiseInfo pid
              (some { txid := txid, source := .getStarter caller })
            nextPromiseId := pid + 1
            executionsFor := fun t => if t = txid then s.executionsFor t + 1
                                      else s.executionsFor t
            inFlightFor := fun t => if t = txid then s.inFlightFor t + 1
                                    else s.inFlightFor t }

/-- `/api/proof-kenny/:txid` (server.ts lines 1001–1086).  STEP 1 runs the
rate limiter first — before the cache is consulted: over quota within the
window responds 429 with `retryAfter = Math.ceil((resetTime - now)/1000)`;
otherwise the tracker is bumped (or re-armed) and the handler continues. -/
def getKenny (s : ServerState) (caller : CallerId) (txid : Txid) (now : Nat) : ServerState :=
  let key := caller ++ "-kenny"
  match s.kennyRequestTracker key with
  | some u =>
      if now < u.resetTime then
        if KENNY_RATE_LIMIT ≤ u.count then
          { s with responses :=
              s.responses ++ [(caller, .rateLimited ((u.resetTime - now + 999) / 1000))] }
        else
          let bumped : RateEntry := { count := u.count + 1, resetTime := u.resetTime }
          getKennyAfterRate
            { s with kennyRequestTracker := upd s.kennyRequestTracker key (some bumped) }
            caller txid
      else
        let fresh : RateEntry := { count := 1, resetTime := now + KENNY_RATE_WINDOW }
        getKennyAfterRate
          { s with kennyRequestTracker := upd s.kennyRequestTracker key (some fresh) }
          caller txid
  | none =>
      let fresh : RateEntry := { count := 1, resetTime := now + KENNY_RATE_WINDOW }
      getKennyAfterRate
        { s with kennyRequestTracker := upd s.kennyRequestTracker key (some fresh) }
        caller txid

/-- The `jobId` built by `/api/proof-kenny-start`. -/
def mkJobId (txid : Txid) (now : Nat) : JobId := "kenny-" ++ txid ++ "-" ++ toString now

/-- `/api/proof-kenny-start/:txid` (server.ts lines 898–969).  No rate-limit
check: cached → `completed` with a fresh, never-registered jobId; already
processing → `existing-<txid>`, also never registered; else register the job,
invoke `processKennyRequest` and respond `processing` immediately. -/
def startKenny (s : ServerState) (caller : CallerId) (txid : Txid) (now : Nat) : ServerState :=
  let jobId := mkJobId txid now
  match s.kennyProofCache txid with
  | some v => { s with responses := s.responses ++ [(caller, .startCompleted jobId v)] }
  | none =>
      match s.ongoingKennyRequests txid with
      | some _ =>
          { s with responses :=
              s.responses ++ [(caller, .startProcessingExisting ("existing-" ++ txid))] }
      | none =>
          let pid := s.nextPromiseId
          { s with
            kennyJobs := upd s.kennyJobs jobId
              (some { status := .processing, startTime := now, result := none, error := none })
            ongoingKennyRequests := upd s.ongoingKennyRequests txid (some pid)
            promiseInfo := upd s.promiseInfo pid
              (some { txid := txid, source := .postJob jobId })
            nextPromiseId := pid + 1
            executionsFor := fun t => if t = txid then s.executionsFor t + 1
                                      else s.executionsFor t
            inFlightFor := fun t => if t = txid then s.inFlightFor t + 1
                                    else s.inFlightFor t
            responses := s.responses ++ [(caller, .startProcessing jobId)] }

/-- `/api/proof-kenny-status/:jobId` (server.ts lines 972–999).  Unknown ids
get 404; known ones report status, `Math.round`-ed runtime, result, error. -/
def statusKenny (s : ServerState) (caller : CallerId) (jobId : JobId) (now : Nat) :
    ServerState :=
  match s.kennyJobs jobId with
  | none => { s with responses := s.responses ++ [(caller, .statusNotFound jobId)] }
  | some j =>
      { s with responses :=
          s.responses ++
            [(caller, .status jobId j.status ((now - j.startTime + 500) / 1000)
                j.result j.error)] }

/-- A pending `processKennyRequest` promise settles; all its continuations run
before any further handler segment.  GET waiters and a GET starter respond
with the value or the error; the cache is filled on success; a POST-started
job record moves to `completed`/`failed` (start time falls back to `Date.now()`
when the stored one is falsy); the `finally` deletes the ongoing entry. -/
def settleKenny (s : ServerState) (pid : Nat) (outcome : Except String ProofValue)
    (now : Nat) : ServerState :=
  match s.promiseInfo pid with
  | none => s
  | some info =>
      let waiterResp : KennyResponse :=
        match outcome with
        | .ok v => .ok v
        | .error m => .err m
      let served := (s.waiters.filter (fun w => w.1 = pid)).map (fun w => (w.2, waiterResp))
      let cache' :=
        match outcome with
        | .ok v => upd s.kennyProofCache info.txid (some v)
        | .error _ => s.kennyProofCache
      let startTimeOf : JobId → Nat := fun j =>
        match s.kennyJobs j with
        | some r => if r.startTime = 0 then now else r.startTime
        | none => now
      let jobs' :=
        match info.source, outcome with
        | .postJob j, .ok v =>
            upd s.kennyJobs j
              (some { status := .completed, startTime := startTimeOf j,
                      result := some v, error := none })
        | .postJob j, .error m =>
            upd s.kennyJobs j
              (some { status := .failed, startTime := startTimeOf j,
                      result := none, error := some m })
        | .getStarter _, _ => s.kennyJobs
      let starterResp : List (CallerId × KennyResponse) :=
        match info.source with
        | .getStarter c => [(c, waiterResp)]
        | .postJob _ => []
      { s with
        kennyProofCache := cache'
        kennyJobs := jobs'
        ongoingKennyRequests := upd s.ongoingKennyRequests info.txid none
        promiseInfo := upd s.promiseInfo pid none
        waiters := s.waiters.filter (fun w => ¬ w.1 = pid)
        responses := s.responses ++ served ++ starterResp
        inFlightFor := fun t => if t = info.txid then s.inFlightFor t - 1
                                else s.inFlightFor t }

/-- `DELETE /api/proof-kenny-cache/:txid` (server.ts lines 1845–1867): clears
one key's cache entry and ongoing tracking (job records are kept). -/
def clearKennyCacheOne (s : ServerState) (caller : CallerId) (txid : Txid) : ServerState :=
  { s with
    kennyProofCache := upd s.kennyProofCache txid none
    ongoingKennyRequests := upd s.ongoingKennyRequests txid none
    responses := s.responses ++ [(caller, .cacheCleared txid)] }

/-- `DELETE /api/proof-kenny-cache-all` (server.ts lines 1870–1884). -/
def clearKennyCacheAll (s : ServerState) (caller : CallerId) : ServerState :=
  { s with
    kennyProofCache := fun _ => none
    ongoingKennyRequests := fun _ => none
    kennyJobs := fun _ => none
    responses := s.responses ++ [(caller, .allCleared)] }

/-- The atomic events of the model. -/
inductive Ev
  | get (caller : CallerId) (txid : Txid) (now : Nat)
  | start (caller : CallerId) (txid : Txid) (now : Nat)
  | status (caller : CallerId) (jobId : JobId) (now : Nat)
  | settle (pid : Nat) (outcome : Except String ProofValue) (now : Nat)
  | clearOne (caller : CallerId) (txid : Txid)
  | clearAll (caller : CallerId)

def step (s : ServerState) : Ev → ServerState
  | .get c t n => getKenny s c t n
  | .start c t n => startKenny s c t n
  | .status c j n => statusKenny s c j n
  | .settle p o n => settleKenny s p o n
  | .clearOne c t => clearKennyCacheOne s c t
  | .clearAll c => clearKennyCacheAll s c

def run (s : ServerState) : List Ev → ServerState
  | [] => s
  | e :: es => run (step s e) es

/-- The server's state at boot: all four maps empty, nothing pending. -/
def initialState : ServerState :=
  { kennyProofCache := fun _ => none
    ongoingKennyRequests := fun _ => none
    kennyRequestTracker := fun _ => none
    kennyJobs := fun _ => none
    promiseInfo := fun _ => none
    nextPromiseId := 0
    waiters := []
    responses := []
    executionsFor := fun _ => 0
    inFlightFor := fun _ => 0 }

/-- The response a caller awaiting the shared promise receives. -/
def respOf : Except String ProofValue → KennyResponse
  | .ok v => .ok v
  | .error m => .err m

end Styx.Server

namespace Styx.Server

/-- A state with a cached proof for `tx1` and caller `alice` already at the
quota inside her window. -/
def s5state : ServerState :=
  { initialState with
    kennyProofCache := upd initialState.kennyProofCache "tx1" (some "proof1")
    kennyRequestTracker := upd initialState.kennyRequestTracker "alice-kenny"
      (some { count := 5, resetTime := 1000 }) }

/-- Counterexample for C5: `tx1` is cached, yet the over-quota caller gets
429 — the rate limiter runs before the cache is consulted. -/
theorem cached_but_rate_limited :
    s5state.kennyProofCache "tx1" = some "proof1" ∧
    (getKenny s5state "alice" "tx1" 500).responses = [("alice", .rateLimited 1)] ∧
    (getKenny s5state "alice" "tx1" 500).kennyProofCache "tx1" = some "proof1" := by
  exact ⟨rfl, rfl, rfl⟩

/-- The branches of STEP 1 on which the handler proceeds past the limiter. -/
def rateCheckPasses (tracker : String → Option RateEntry) (key : String) (now : Nat) : Prop :=
  match tracker key with
  | none => True
  | some u => u.resetTime ≤ now ∨ u.count < KENNY_RATE_LIMIT

/-- C5 (amended): a caller whose rate-limit check passes gets the cached
value immediately, and the cache hit starts no computation and leaves cache
and ongoing-request tables untouched.  (As frozen the claim fails: the rate
limiter runs before the cache check, so an over-quota caller is refused even
for a cached key.) -/
theorem cached_hit_fast (s : ServerState) (caller : CallerId) (txid : Txid) (now : Nat)
    (v : ProofValue) (hcache : s.kennyProofCache txid = some v)
    (hrate : rateCheckPasses s.kennyRequestTracker (caller ++ "-kenny") now) :
    (getKenny s caller txid now).responses = s.responses ++ [(caller, .ok v)] ∧
    (getKenny s caller txid now).executionsFor = s.executionsFor ∧
    (getKenny s caller txid now).ongoingKennyRequests = s.ongoingKennyRequests ∧
    (getKenny s caller txid now).kennyProofCache = s.kennyProofCache := by
  unfold getKenny
  unfold rateCheckPasses at hrate
  cases ht : s.kennyRequestTracker (caller ++ "-kenny") with
  | none => simp [ht, getKennyAfterRate, hcache]
  | some u =>
      rw [ht] at hrate
      simp only [ht]
      by_cases hwin : now < u.resetTime
      · rw [if_pos hwin, if_neg (by
          rcases hrate with h1 | h1
          · omega
          · unfold KENNY_RATE_LIMIT at h1 ⊢
            omega)]
        simp [getKennyAfterRate, hcache]
      · rw [if_neg hwin]
        simp [getKennyAfterRate, hcache]

theorem get_blocks_over_quota (s : ServerState) (caller : CallerId) (txid : Txid)
    (now : Nat) (u : RateEntry)
    (ht : s.kennyRequestTracker (caller ++ "-kenny") = some u)
    (hwin : now < u.resetTime) (hq : KENNY_RATE_LIMIT ≤ u.count) :
    getKenny s caller txid now =
      { s with responses :=
          s.responses ++ [(caller, .rateLimited ((u.resetTime - now + 999) / 1000))] } := by
  unfold getKenny
  simp only [ht]
  rw [if_pos hwin, if_pos hq]

theorem start_tracker_irrelevant (s : ServerState) (caller : CallerId) (txid : Txid)
    (now : Nat) (t' : String → Option RateEntry) :
    startKenny { s with kennyRequestTracker := t' } caller txid now =
      { startKenny s caller txid now with kennyRequestTracker := t' } := by
  obtain ⟨c, o, tr, j, pi, np, w, r, ex, fl⟩ := s
  unfold startKenny
  cases hc : c txid <;> cases ho : o txid <;> simp only [hc, ho]

/-- `alice` has exhausted her quota (5 used, window open until 2000). -/
def s6state : ServerState :=
  { initialState with
    kennyRequestTracker := upd initialState.kennyRequestTracker "alice-kenny"
      (some { count := 5, resetTime := 2000 }) }

/-- Counterexample for C6: the same exhausted-quota caller is refused by the
GET endpoint but starts a Kenny computation unmetered through the
start endpoint, which also leaves the tracker untouched. -/
theorem start_ignores_quota :
    s6state.kennyRequestTracker "alice-kenny" = some { count := 5, resetTime := 2000 } ∧
    (getKenny s6state "alice" "tx1" 1000).responses = [("alice", .rateLimited 1)] ∧
    (startKenny s6state "alice" "tx1" 1000).responses =
      [("alice", .startProcessing "kenny-tx1-1000")] ∧
    (startKenny s6state "alice" "tx1" 1000).executionsFor "tx1" = 1 ∧
    (startKenny s6state "alice" "tx1" 1000).kennyRequestTracker =
      s6state.kennyRequestTracker := by
  exact ⟨rfl, rfl, rfl, rfl, rfl⟩

/-- A state with a cached proof for `tx1` and no job records. -/
def s10state : ServerState :=
  { initialState with kennyProofCache := upd initialState.kennyProofCache "tx1" (some "v1") }

/-- Counterexample for C10: the cached branch of the start endpoint returns
jobId `kenny-tx1-100` without registering it, so polling that very id yields
`Job not found`. -/
theorem start_cached_jobid_unknown :
    (startKenny s10state "bob" "tx1" 100).responses =
      [("bob", .startCompleted "kenny-tx1-100" "v1")] ∧
    (startKenny s10state "bob" "tx1" 100).kennyJobs = s10state.kennyJobs ∧
    (statusKenny (startKenny s10state "bob" "tx1" 100) "carol" "kenny-tx1-100" 200).responses =
      [("bob", .startCompleted "kenny-tx1-100" "v1"),
       ("carol", .statusNotFound "kenny-tx1-100")] := by
  exact ⟨rfl, rfl, rfl⟩

theorem start_new_registers (s : ServerState) (caller : CallerId) (txid : Txid) (now : Nat)
    (hc : s.kennyProofCache txid = none) (ho : s.ongoingKennyRequests txid = none) :
    (startKenny s caller txid now).kennyJobs (mkJobId txid now) =
      some { status := .processing, startTime := now, result := none, error := none } ∧
    (startKenny s caller txid now).responses =
      s.responses ++ [(caller, .startProcessing (mkJobId txid now))] := by
  unfold startKenny
  simp only [hc, ho]
  constructor
  · unfold upd
    simp
  · trivial

theorem start_cached_no_register (s : ServerState) (caller : CallerId) (txid : Txid)
    (now : Nat) (v : ProofValue) (hc : s.kennyProofCache txid = some v) :
    (startKenny s caller txid now).kennyJobs = s.kennyJobs ∧
    (startKenny s caller txid now).responses =
      s.responses ++ [(caller, .startCompleted (mkJobId txid now) v)] := by
  unfold startKenny
  simp only [hc]
  constructor <;> trivial

theorem start_existing_no_register (s : ServerState) (caller : CallerId) (txid : Txid)
    (now : Nat) (pid : Nat) (hc : s.kennyProofCache txid = none)
    (ho : s.ongoingKennyRequests txid = some pid) :
    (startKenny s caller txid now).kennyJobs = s.kennyJobs ∧
    (startKenny s caller txid now).responses =
      s.responses ++ [(caller, .startProcessingExisting ("existing-" ++ txid))] := by
  unfold startKenny
  simp only [hc, ho]
  constructor <;> trivial

theorem status_of_unknown (s : ServerState) (caller : CallerId) (jobId : JobId) (now : Nat)
    (hj : s.kennyJobs jobId = none) :
    (statusKenny s caller jobId now).responses =
      s.responses ++ [(caller, .statusNotFound jobId)] := by
  unfold statusKenny
  simp only [hj]

theorem status_of_known (s : ServerState) (caller : CallerId) (jobId : JobId) (now : Nat)
    (j : JobRecord) (hj : s.kennyJobs jobId = some j) :
    (statusKenny s caller jobId now).responses =
      s.responses ++
        [(caller, .status jobId j.status ((now - j.startTime + 500) / 1000)
            j.result j.error)] := by
  unfold statusKenny
  simp only [hj]

end Styx.Server

namespace Styx.Server

theorem kenny_key_inj (c1 c2 : String) (h : c1 ++ "-kenny" = c2 ++ "-kenny") : c1 = c2 := by
  have hd := congrArg String.data h
  simp only [String.data_append] at hd
  exact String.ext (List.append_cancel_right hd)

theorem get_starts_job (s : ServerState) (c : CallerId) (txid : Txid) (n : Nat)
    (htr : s.kennyRequestTracker (c ++ "-kenny") = none)
    (hc : s.kennyProofCache txid = none)
    (ho : s.ongoingKennyRequests txid = none) :
    getKenny s c txid n =
      { s with
        kennyRequestTracker := upd s.kennyRequestTracker (c ++ "-kenny")
          (some { count := 1, resetTime := n + KENNY_RATE_WINDOW })
        ongoingKennyRequests := upd s.ongoingKennyRequests txid (some s.nextPromiseId)
        promiseInfo := upd s.promiseInfo s.nextPromiseId
          (some { txid := txid, source := .getStarter c })
        nextPromiseId := s.nextPromiseId + 1
        executionsFor := fun t => if t = txid then s.executionsFor t + 1
                                  else s.executionsFor t
        inFlightFor := fun t => if t = txid then s.inFlightFor t + 1
                                else s.inFlightFor t } := by
  obtain ⟨cm, om, tr, jm, pim, np, w, r, ex, fl⟩ := s
  simp only at htr hc ho ⊢
  unfold getKenny getKennyAfterRate
  simp only [htr, hc, ho]

theorem get_attaches (s : ServerState) (c : CallerId) (txid : Txid) (n : Nat) (pid : Nat)
    (htr : s.kennyRequestTracker (c ++ "-kenny") = none)
    (hc : s.kennyProofCache txid = none)
    (ho : s.ongoingKennyRequests txid = some pid) :
    getKenny s c txid n =
      { s with
        kennyRequestTracker := upd s.kennyRequestTracker (c ++ "-kenny")
          (some { count := 1, resetTime := n + KENNY_RATE_WINDOW })
        waiters := s.waiters ++ [(pid, c)] } := by
  obtain ⟨cm, om, tr, jm, pim, np, w, r, ex, fl⟩ := s
  simp only at htr hc ho ⊢
  unfold getKenny getKennyAfterRate
  simp only [htr, hc, ho]

theorem run_waiters (cs : List (CallerId × Nat)) : ∀ (s : ServerState) (txid : Txid) (pid : Nat),
    s.kennyProofCache txid = none →
    s.ongoingKennyRequests txid = some pid →
    (∀ c ∈ cs.map Prod.fst, s.kennyRequestTracker (c ++ "-kenny") = none) →
    (cs.map Prod.fst).Nodup →
    (run s (cs.map fun p => Ev.get p.1 txid p.2)).kennyProofCache = s.kennyProofCache ∧
    (run s (cs.map fun p => Ev.get p.1 txid p.2)).ongoingKennyRequests =
      s.ongoingKennyRequests ∧
    (run s (cs.map fun p => Ev.get p.1 txid p.2)).waiters =
      s.waiters ++ cs.map (fun p => (pid, p.1)) ∧
    (run s (cs.map fun p => Ev.get p.1 txid p.2)).responses = s.responses ∧
    (run s (cs.map fun p => Ev.get p.1 txid p.2)).executionsFor = s.executionsFor ∧
    (run s (cs.map fun p => Ev.get p.1 txid p.2)).inFlightFor = s.inFlightFor ∧
    (run s (cs.map fun p => Ev.get p.1 txid p.2)).promiseInfo = s.promiseInfo ∧
    (run s (cs.map fun p => Ev.get p.1 txid p.2)).kennyJobs = s.kennyJobs ∧
    (run s (cs.map fun p => Ev.get p.1 txid p.2)).nextPromiseId = s.nextPromiseId := by
  induction cs with
  | nil =>
      intro s txid pid _ _ _ _
      exact ⟨rfl, rfl, by simp [run], rfl, rfl, rfl, rfl, rfl, rfl⟩
  | cons p rest ih =>
      intro s txid pid hc ho hfresh hnd
      obtain ⟨c, n⟩ := p
      have hstep : step s (Ev.get c txid n) =
          { s with
            kennyRequestTracker := upd s.kennyRequestTracker (c ++ "-kenny")
              (some { count := 1, resetTime := n + KENNY_RATE_WINDOW })
            waiters := s.waiters ++ [(pid, c)] } := by
        show getKenny s c txid n = _
        exact get_attaches s c txid n pid (hfresh c (by simp)) hc ho
      have hfresh' : ∀ c' ∈ rest.map Prod.fst,
          (upd s.kennyRequestTracker (c ++ "-kenny")
            (some { count := 1, resetTime := n + KENNY_RATE_WINDOW })) (c' ++ "-kenny") =
            none := by
        intro c' hc'
        have hne : c' ≠ c := by
          intro he
          subst he
          simp only [List.map_cons, List.nodup_cons] at hnd
          exact hnd.1 hc'
        unfold upd
        rw [if_neg (fun he => hne (kenny_key_inj _ _ he))]
        exact hfresh c' (by simp [hc'])
      have hnd' : (rest.map Prod.fst).Nodup := by
        simp only [List.map_cons, List.nodup_cons] at hnd
        exact hnd.2
      simp only [List.map_cons]
      rw [run, hstep]
      obtain ⟨h1, h2, h3, h4, h5, h6, h7, h8, h9⟩ :=
        ih { s with
              kennyRequestTracker := upd s.kennyRequestTracker (c ++ "-kenny")
                (some { count := 1, resetTime := n + KENNY_RATE_WINDOW })
              waiters := s.waiters ++ [(pid, c)] } txid pid hc ho hfresh' hnd'
      refine ⟨h1, h2, ?_, h4, h5, h6, h7, h8, h9⟩
      rw [h3]
      simp

theorem filter_map_pid (rest : List (CallerId × Nat)) (pid : Nat) :
    ((rest.map (fun p => (pid, p.1))).filter (fun w => w.1 = pid)) =
      rest.map (fun p => (pid, p.1)) := by
  induction rest with
  | nil => rfl
  | cons p t ih => simp [ih]

end Styx.Server

namespace Styx.Server

theorem respOf_match (outcome : Except String ProofValue) :
    (match outcome with
     | Except.ok v => KennyResponse.ok v
     | Except.error m => KennyResponse.err m) = respOf outcome := by
  cases outcome <;> rfl

theorem step_settle (s : ServerState) (p : Nat) (o : Except String ProofValue) (n : Nat) :
    step s (Ev.settle p o n) = settleKenny s p o n := rfl

theorem settle_get_starter (s : ServerState) (pid : Nat)
    (outcome : Except String ProofValue) (now : Nat) (txid : Txid) (c1 : CallerId)
    (hpi : s.promiseInfo pid = some { txid := txid, source := .getStarter c1 }) :
    (settleKenny s pid outcome now).responses =
      s.responses ++
        (s.waiters.filter (fun w => w.1 = pid)).map (fun w => (w.2, respOf outcome)) ++
        [(c1, respOf outcome)] := by
  unfold settleKenny
  simp only [hpi]
  cases outcome <;> simp [respOf]

/-- C4: for any number of concurrent GET callers racing on an uncached,
un-tracked key — all of whose handler segments run before the shared promise
settles, each passing the rate limiter on a fresh tracker entry — exactly one
`processKennyRequest` execution starts, at most one is in flight after every
prefix of the interleaving, the key maps to the one shared promise, and at
settlement every caller receives the identical result (or the identical
failure message). -/
theorem dedup_run (s0 : ServerState) (txid : Txid) (outcome : Except String ProofValue)
    (now2 : Nat) (c1 : CallerId) (n1 : Nat) (rest : List (CallerId × Nat))
    (hnd : (((c1, n1) :: rest).map Prod.fst).Nodup)
    (hc : s0.kennyProofCache txid = none)
    (ho : s0.ongoingKennyRequests txid = none)
    (hifz : s0.inFlightFor txid = 0)
    (hw : s0.waiters = [])
    (hr : s0.responses = [])
    (hfresh : ∀ c ∈ ((c1, n1) :: rest).map Prod.fst,
      s0.kennyRequestTracker (c ++ "-kenny") = none) :
    (run s0 (((c1, n1) :: rest).map fun p => Ev.get p.1 txid p.2)).executionsFor txid =
      s0.executionsFor txid + 1 ∧
    (run s0 (((c1, n1) :: rest).map fun p => Ev.get p.1 txid p.2)).ongoingKennyRequests
      txid = some s0.nextPromiseId ∧
    (∀ pre suffix,
      ((c1, n1) :: rest).map (fun p => Ev.get p.1 txid p.2) = pre ++ suffix →
      (run s0 pre).inFlightFor txid ≤ 1) ∧
    (step (run s0 (((c1, n1) :: rest).map fun p => Ev.get p.1 txid p.2))
        (Ev.settle s0.nextPromiseId outcome now2)).responses =
      rest.map (fun p => (p.1, respOf outcome)) ++ [(c1, respOf outcome)] := by
  have hfc1 : s0.kennyRequestTracker (c1 ++ "-kenny") = none := hfresh c1 (by simp)
  have hstart := get_starts_job s0 c1 txid n1 hfc1 hc ho
  have hfreshR : ∀ c' ∈ rest.map Prod.fst,
      (upd s0.kennyRequestTracker (c1 ++ "-kenny")
        (some { count := 1, resetTime := n1 + KENNY_RATE_WINDOW })) (c' ++ "-kenny") =
        none := by
    intro c' hc'
    have hne : c' ≠ c1 := by
      intro he
      subst he
      simp only [List.map_cons, List.nodup_cons] at hnd
      exact hnd.1 hc'
    unfold upd
    rw [if_neg (fun he => hne (kenny_key_inj _ _ he))]
    exact hfresh c' (by simp [hc'])
  have hndR : (rest.map Prod.fst).Nodup := by
    simp only [List.map_cons, List.nodup_cons] at hnd
    exact hnd.2
  have hoS : (upd s0.ongoingKennyRequests txid (some s0.nextPromiseId)) txid =
      some s0.nextPromiseId := by
    unfold upd
    simp
  obtain ⟨w1, w2, w3, w4, w5, w6, w7, w8, w9⟩ :=
    run_waiters rest
      { s0 with
        kennyRequestTracker := upd s0.kennyRequestTracker (c1 ++ "-kenny")
          (some { count := 1, resetTime := n1 + KENNY_RATE_WINDOW })
        ongoingKennyRequests := upd s0.ongoingKennyRequests txid (some s0.nextPromiseId)
        promiseInfo := upd s0.promiseInfo s0.nextPromiseId
          (some { txid := txid, source := .getStarter c1 })
        nextPromiseId := s0.nextPromiseId + 1
        executionsFor := fun t => if t = txid then s0.executionsFor t + 1
                                  else s0.executionsFor t
        inFlightFor := fun t => if t = txid then s0.inFlightFor t + 1
                                else s0.inFlightFor t }
      txid s0.nextPromiseId hc hoS hfreshR hndR
  have hrun : run s0 (((c1, n1) :: rest).map fun p => Ev.get p.1 txid p.2) =
      run
        { s0 with
          kennyRequestTracker := upd s0.kennyRequestTracker (c1 ++ "-kenny")
            (some { count := 1, resetTime := n1 + KENNY_RATE_WINDOW })
          ongoingKennyRequests := upd s0.ongoingKennyRequests txid (some s0.nextPromiseId)
          promiseInfo := upd s0.promiseInfo s0.nextPromiseId
            (some { txid := txid, source := .getStarter c1 })
          nextPromiseId := s0.nextPromiseId + 1
          executionsFor := fun t => if t = txid then s0.executionsFor t + 1
                                    else s0.executionsFor t
          inFlightFor := fun t => if t = txid then s0.inFlightFor t + 1
                                  else s0.inFlightFor t }
        (rest.map fun p => Ev.get p.1 txid p.2) := by
    simp only [List.map_cons]
    rw [run, show step s0 (Ev.get c1 txid n1) = _ from hstart]
  refine ⟨?_, ?_, ?_, ?_⟩
  · rw [hrun, w5]
    simp
  · rw [hrun, w2]
    exact hoS
  · intro pre suffix heq
    cases pre with
    | nil =>
        rw [run]
        omega
    | cons e1 pre2 =>
        simp only [List.map_cons, List.cons_append, List.cons.injEq] at heq
        obtain ⟨he1, hsplit⟩ := heq
        obtain ⟨l1, l2, hl, hm1, _⟩ := List.map_eq_append_iff.mp hsplit
        subst hl he1
        obtain ⟨_, _, _, _, _, v6, _, _, _⟩ :=
          run_waiters l1
            { s0 with
              kennyRequestTracker := upd s0.kennyRequestTracker (c1 ++ "-kenny")
                (some { count := 1, resetTime := n1 + KENNY_RATE_WINDOW })
              ongoingKennyRequests := upd s0.ongoingKennyRequests txid
                (some s0.nextPromiseId)
              promiseInfo := upd s0.promiseInfo s0.nextPromiseId
                (some { txid := txid, source := .getStarter c1 })
              nextPromiseId := s0.nextPromiseId + 1
              executionsFor := fun t => if t = txid then s0.executionsFor t + 1
                                        else s0.executionsFor t
              inFlightFor := fun t => if t = txid then s0.inFlightFor t + 1
                                      else s0.inFlightFor t }
            txid s0.nextPromiseId hc hoS
            (fun c' hc' => hfreshR c' (by
              rw [List.map_append]
              exact List.mem_append_left _ hc'))
            (by
              rw [List.map_append] at hndR
              exact hndR.of_append_left)
        rw [run]
        rw [show step s0 (Ev.get c1 txid n1) = _ from hstart]
        rw [← hm1]
        rw [v6]
        simp [hifz]
  · rw [hrun]
    have hpi : (run
        { s0 with
          kennyRequestTracker := upd s0.kennyRequestTracker (c1 ++ "-kenny")
            (some { count := 1, resetTime := n1 + KENNY_RATE_WINDOW })
          ongoingKennyRequests := upd s0.ongoingKennyRequests txid (some s0.nextPromiseId)
          promiseInfo := upd s0.promiseInfo s0.nextPromiseId
            (some { txid := txid, source := .getStarter c1 })
          nextPromiseId := s0.nextPromiseId + 1
          executionsFor := fun t => if t = txid then s0.executionsFor t + 1
                                    else s0.executionsFor t
          inFlightFor := fun t => if t = txid then s0.inFlightFor t + 1
                                  else s0.inFlightFor t }
        (rest.map fun p => Ev.get p.1 txid p.2)).promiseInfo s0.nextPromiseId =
        some { txid := txid, source := .getStarter c1 } := by
      rw [w7]
      unfold upd
      simp
    rw [step_settle, settle_get_starter _ _ _ _ txid c1 hpi]
    rw [w4, w3, hw, hr]
    simp only [List.nil_append]
    rw [filter_map_pid]
    simp [List.map_map, Function.comp]
end Styx.Server

namespace Styx.Claims

open Styx.Sha Styx.Merkle Styx.Extract Styx.Server

/-- C2: `extractProofInfo` does not surface failures.  When the target txid is
absent from the block's transaction list the try-block body raises
`TransactionNotInBlock`, but the catch block swallows every internal failure
(merkle-root mismatches included) and the function returns the initial empty
proof object to the caller instead of failing. -/
theorem extract_failures_swallowed :
    (∀ pgd : Pgd, (∀ e ∈ pgd.block.txids, e.txid ≠ pgd.txId) →
      extractProofInfoInner pgd = .error .targetNotFound ∧
      extractProofInfo pgd = none) ∧
    (∀ (pgd : Pgd) (e : ExtractError),
      extractProofInfoInner pgd = .error e → extractProofInfo pgd = none) :=
  ⟨fun pgd h => extract_target_not_found pgd h,
   fun pgd e h => extract_swallows_all pgd e h⟩

/-- C6 (amended): only the direct GET path is metered.  Over quota inside the
window, `/api/proof-kenny` fails fast with 429 and a
`Math.ceil((resetTime-now)/1000)` retry hint, touching nothing else; the
asynchronous `/api/proof-kenny-start` path never reads the tracker — its
behavior is identical under any tracker state — so it invokes the Kenny
strategy unmetered. -/
theorem rate_limit_scope :
    (∀ (s : ServerState) (caller : CallerId) (txid : Txid) (now : Nat) (u : RateEntry),
      s.kennyRequestTracker (caller ++ "-kenny") = some u →
      now < u.resetTime → KENNY_RATE_LIMIT ≤ u.count →
      getKenny s caller txid now =
        { s with responses :=
            s.responses ++
              [(caller, .rateLimited ((u.resetTime - now + 999) / 1000))] }) ∧
    (∀ (s : ServerState) (caller : CallerId) (txid : Txid) (now : Nat)
      (t' : String → Option RateEntry),
      startKenny { s with kennyRequestTracker := t' } caller txid now =
        { startKenny s caller txid now with kennyRequestTracker := t' }) :=
  ⟨fun s caller txid now u ht hw hq => get_blocks_over_quota s caller txid now u ht hw hq,
   fun s caller txid now t' => start_tracker_irrelevant s caller txid now t'⟩

/-- C8 (amended): the witness-commitment scan of `extractWitnessCommitment`
looks for `aa21a9ed` (no `6a24` prefix) case-insensitively at any character
offset.  With no such occurrence it returns `null`; any returned value is the
64 hex chars after the first occurrence, lowercased and non-zero; and on a
coinbase hex of the form `6a24aa21a9ed<64 hex>…` with a non-zero commitment it
returns exactly those 64 chars lowercased. -/
theorem witness_commitment_scan :
    (∀ s : List Char,
      (∀ i, ((s.drop i).take 8).map Char.toLower ≠
        ['a', 'a', '2', '1', 'a', '9', 'e', 'd']) →
      findCommitment s = none) ∧
    (∀ (s cap : List Char), extractWitnessCommitment s = some cap →
      cap.length = 64 ∧ cap ≠ zeros64Chars ∧
      ∃ raw : List Char, raw.length = 64 ∧ raw.all isHexDigitChar = true ∧
        cap = raw.map Char.toLower) ∧
    (∀ commit post : List Char, commit.length = 64 →
      commit.all isHexDigitChar = true → commit.map Char.toLower ≠ zeros64Chars →
      extractWitnessCommitment
          (['6', 'a', '2', '4', 'a', 'a', '2', '1', 'a', '9', 'e', 'd'] ++
            commit ++ post) =
        some (commit.map Char.toLower)) :=
  ⟨fun s h => findCommitment_none s h,
   fun s cap h => extractWitnessCommitment_shape s cap h,
   fun commit post h1 h2 h3 => extractWitnessCommitment_marker commit post h1 h2 h3⟩

/-- C9 (amended): every chunk `splitIntoChunksSimple` emits is exactly 64 hex
chars (32 bytes) and a short trailing chunk is silently dropped, so the chunk
count is `len / 64`; but `processKennyRequest` assembles `formattedProof` from
those chunks and the reported `merkleProofDepth` with no consistency check —
a proof shorter than `treeDepth` is emitted as-is, not rejected. -/
theorem emitted_chunks_spec :
    (∀ (s c : List Char), c ∈ splitIntoChunksSimple s → c.length = 64) ∧
    (∀ s : List Char, ¬ s.take 2 = ['0', 'x'] →
      (splitIntoChunksSimple s).length = s.length / 64) ∧
    (∀ kp : KennyProofResult,
      (buildFormattedProof kp).wproof = splitIntoChunksSimple kp.witnessMerkleProof ∧
      (buildFormattedProof kp).cproof = splitIntoChunksSimple kp.coinbaseMerkleProof ∧
      (buildFormattedProof kp).treeDepth = kp.merkleProofDepth) :=
  ⟨fun s c h => splitIntoChunksSimple_mem s c h,
   fun s h => splitIntoChunksSimple_length s h,
   fun kp => buildFormattedProof_emits kp⟩

/-- C10 (amended): only the job actually started by `/api/proof-kenny-start`
is registered in `kennyJobs` and pollable; the jobIds returned by the cached
branch and the already-processing branch are never registered, and
`/api/proof-kenny-status` returns `Job not found` for every id not in the
table. -/
theorem job_registration_spec :
    (∀ (s : ServerState) (caller : CallerId) (txid : Txid) (now : Nat),
      s.kennyProofCache txid = none → s.ongoingKennyRequests txid = none →
      (startKenny s caller txid now).kennyJobs (mkJobId txid now) =
        some { status := .processing, startTime := now, result := none, error := none } ∧
      (startKenny s caller txid now).responses =
        s.responses ++ [(caller, .startProcessing (mkJobId txid now))]) ∧
    (∀ (s : ServerState) (caller : CallerId) (txid : Txid) (now : Nat) (v : ProofValue),
      s.kennyProofCache txid = some v →
      (startKenny s caller txid now).kennyJobs = s.kennyJobs) ∧
    (∀ (s : ServerState) (caller : CallerId) (txid : Txid) (now : Nat) (pid : Nat),
      s.kennyProofCache txid = none → s.ongoingKennyRequests txid = some pid →
      (startKenny s caller txid now).kennyJobs = s.kennyJobs) ∧
    (∀ (s : ServerState) (caller : CallerId) (jobId : JobId) (now : Nat),
      s.kennyJobs jobId = none →
      (statusKenny s caller jobId now).responses =
        s.responses ++ [(caller, .statusNotFound jobId)]) :=
  ⟨fun s caller txid now hc ho => start_new_registers s caller txid now hc ho,
   fun s caller txid now v hc => (start_cached_no_register s caller txid now v hc).1,
   fun s caller txid now pid hc ho =>
     (start_existing_no_register s caller txid now pid hc ho).1,
   fun s caller jobId now hj => status_of_unknown s caller jobId now hj⟩

end Styx.Claims

namespace Styx.Claims

open Styx.Sha Styx.Merkle Styx.Extract Styx.Server

/-- C3 (amended): for a single-leaf input, `generateMerkleRoot` duplicates the
lone leaf (`ensureEven`) and returns `doubleSHA256(a ‖ a)` — not `a` — while
`generateMerkleTree` keeps the single level `[[a]]` and
`generateMerkleProof(a, [a])` returns the empty sibling list with depth 0 as
the claim states. -/
theorem single_leaf_behavior (a : Hash) :
    generateMerkleRoot [a] = hashPair a a ∧
    generateMerkleTree [a] = [[a]] ∧
    generateMerkleProof a [a] = .ok ⟨[], 0⟩ :=
  ⟨generateMerkleRoot_single a, generateMerkleTree_single a,
   generateMerkleProof_single a⟩

/-- Witness for C1: two distinct one-byte leaves, index 0. -/
theorem roundtrip_two_leaves :
    ∃ ps : List Hash,
      generateMerkleProof (([[0], [1]] : List Hash).getD 0 []) [[0], [1]] =
        .ok ⟨ps.map some, ps.length⟩ ∧
      verifyMerkleProofHex (([[0], [1]] : List Hash).getD 0 []) ps
        (generateMerkleRoot [[0], [1]]) 0 = true :=
  merkleProof_roundtrip [[0], [1]] 0 (by decide) (by decide) (by decide)

/-- Witness for C4: callers `alice` and `bob` racing on the uncached `tx1`
from the boot state produce exactly one `processKennyRequest` run. -/
theorem dedup_two_callers :
    (run initialState ((("alice", 1) :: [("bob", 2)]).map fun p =>
        Ev.get p.1 "tx1" p.2)).executionsFor "tx1" =
      initialState.executionsFor "tx1" + 1 :=
  (dedup_run initialState "tx1" (Except.ok "v") 0 "alice" 1 [("bob", 2)]
    (by decide) rfl rfl rfl rfl rfl (fun _ _ => rfl)).1

/-- A boot state whose only populated entry is a cached proof for `tx2`. -/
def s5pass : ServerState :=
  { initialState with
    kennyProofCache := upd initialState.kennyProofCache "tx2" (some "p2") }

/-- Witness for C5: a caller with no tracker entry hits the cache for `tx2`. -/
theorem cached_hit_witness :
    (getKenny s5pass "dave" "tx2" 7).responses =
      s5pass.responses ++ [("dave", .ok "p2")] ∧
    (getKenny s5pass "dave" "tx2" 7).executionsFor = s5pass.executionsFor ∧
    (getKenny s5pass "dave" "tx2" 7).ongoingKennyRequests =
      s5pass.ongoingKennyRequests ∧
    (getKenny s5pass "dave" "tx2" 7).kennyProofCache = s5pass.kennyProofCache :=
  cached_hit_fast s5pass "dave" "tx2" 7 "p2" rfl trivial

/-- Witness for C7: the version-only transaction `02000000`. -/
theorem parse_len8_witness :
    parseKennyTransactionDataSimple ['0', '2', '0', '0', '0', '0', '0', '0'] =
      { wtx := { version := '0' :: 'x' :: ['0', '2', '0', '0', '0', '0', '0', '0']
                 ins := []
                 outs := []
                 locktime := '0' :: 'x' :: ['0', '2', '0', '0', '0', '0', '0', '0'] }
        witnessData := ['0', 'x'] } :=
  parse_len8 ['0', '2', '0', '0', '0', '0', '0', '0'] rfl (by decide)

end Styx.Claims

namespace Styx.Merkle

open Styx.Sha

set_option maxRecDepth 40000 in
example :
    (generateMerkleProof [3] [[1], [2], [3]]).map (fun r => r.merkleProof) =
      .ok [some [3], some (hashPair [1] [2])] ∧
    verifyMerkleProofHex [3] [[3], hashPair [1] [2]]
      (generateMerkleRoot [[1], [2], [3]]) 2 = true := by
  have htree : generateMerkleTree [[1], [2], [3]] =
      [[[1], [2], [3], [3]], [hashPair [1] [2], hashPair [3] [3]],
       [hashPair (hashPair [1] [2]) (hashPair [3] [3])]] := by
    rw [generateMerkleTree, if_neg (by simp),
        merkleLevels_ge2 _ (by simp)]
    rw [show combinePairs (ensureEven [[1], [2], [3]]) =
        [hashPair [1] [2], hashPair [3] [3]] from by
      simp [ensureEven, combinePairs]]
    rw [merkleLevels_ge2 _ (by simp)]
    rw [show combinePairs (ensureEven [hashPair [1] [2], hashPair [3] [3]]) =
        [hashPair (hashPair [1] [2]) (hashPair [3] [3])] from by
      simp [ensureEven, combinePairs]]
    rw [merkleLevels_single _ (by simp)]
    simp [ensureEven]
  have hroot : generateMerkleRoot [[1], [2], [3]] =
      hashPair (hashPair [1] [2]) (hashPair [3] [3]) := by
    rw [generateMerkleRoot]
    rw [dif_neg (by simp)]
    rw [show combinePairs (ensureEven [[1], [2], [3]]) =
        [hashPair [1] [2], hashPair [3] [3]] from by
      simp [ensureEven, combinePairs]]
    rw [dif_neg (by simp)]
    rw [generateMerkleRoot]
    rw [dif_neg (by simp)]
    rw [show combinePairs (ensureEven [hashPair [1] [2], hashPair [3] [3]]) =
        [hashPair (hashPair [1] [2]) (hashPair [3] [3])] from by
      simp [ensureEven, combinePairs]]
    simp
  constructor
  · simp [generateMerkleProof, htree, jsFindIndex, List.findIdx?, buildProofAux,
          jsGet, Int.fdiv]
    rfl
  · rw [hroot]
    simp [verifyMerkleProofHex, verifyFoldAux, hashPair]

end Styx.Merkle

namespace Styx.Server

/-- A complete legacy (non-segwit) transaction: one input spending outpoint
aa…aa:0 with script `51`, one 1000-sat output with script `51`, locktime 0. -/
def legacyTx : List Char :=
  ['0', '1', '0', '0', '0', '0', '0', '0'] ++ ['0', '1'] ++ List.replicate 64 'a' ++
  ['0', '0', '0', '0', '0', '0', '0', '0'] ++ ['0', '1'] ++ ['5', '1'] ++
  ['f', 'f', 'f', 'f', 'f', 'f', 'f', 'f'] ++ ['0', '1'] ++
  ['e', '8', '0', '3', '0', '0', '0', '0', '0', '0', '0', '0', '0', '0', '0', '0'] ++
  ['0', '1'] ++ ['5', '1'] ++ ['0', '0', '0', '0', '0', '0', '0', '0']

set_option maxRecDepth 40000 in
example :
    parseKennyTransactionDataSimple legacyTx =
      { wtx :=
          { version := ['0', 'x', '0', '1', '0', '0', '0', '0', '0', '0']
            ins := [{ outpoint := { hash := ['0', 'x'] ++ List.replicate 64 'a'
                                    index := ['0', 'x', '0', '0', '0', '0', '0', '0', '0', '0'] }
                      scriptSig := ['0', 'x', '5', '1']
                      sequence := ['0', 'x', 'f', 'f', 'f', 'f', 'f', 'f', 'f', 'f'] }]
            outs := [{ value := ['0', 'x', 'e', '8', '0', '3', '0', '0', '0', '0',
                                 '0', '0', '0', '0', '0', '0', '0', '0']
                       scriptPubKey := ['0', 'x', '5', '1'] }]
            locktime := ['0', 'x', '0', '0', '0', '0', '0', '0', '0', '0'] }
        witnessData := ['0', 'x'] } := by
  rfl

/-- The same transaction with segwit marker/flag `0001` and a 6-char witness
section before the locktime. -/
def segwitTx : List Char :=
  ['0', '1', '0', '0', '0', '0', '0', '0'] ++ ['0', '0', '0', '1'] ++ ['0', '1'] ++
  List.replicate 64 'a' ++
  ['0', '0', '0', '0', '0', '0', '0', '0'] ++ ['0', '1'] ++ ['5', '1'] ++
  ['f', 'f', 'f', 'f', 'f', 'f', 'f', 'f'] ++ ['0', '1'] ++
  ['e', '8', '0', '3', '0', '0', '0', '0', '0', '0', '0', '0', '0', '0', '0', '0'] ++
  ['0', '1'] ++ ['5', '1'] ++ ['0', '2', 'a', 'b', 'c', 'd'] ++
  ['0', '0', '0', '0', '0', '0', '0', '0']

set_option maxRecDepth 40000 in
example :
    (parseKennyTransactionDataSimple segwitTx).witnessData =
      ['0', 'x', '0', '2', 'a', 'b', 'c', 'd'] ∧
    (parseKennyTransactionDataSimple segwitTx).wtx.ins =
      (parseKennyTransactionDataSimple legacyTx).wtx.ins ∧
    (parseKennyTransactionDataSimple segwitTx).wtx.locktime =
      ['0', 'x', '0', '0', '0', '0', '0', '0', '0', '0'] := by
  exact ⟨rfl, rfl, rfl⟩

end Styx.Server

namespace Styx.Extract

open Styx.Sha Styx.Merkle

/-- A consistent two-transaction non-segwit block: display-order txids `01`
and `02`, header merkle root stored big-endian (so its byte reversal equals
the computed little-endian root), target transaction `02`. -/
def pgdTwo : Pgd :=
  { txId := [2]
    txhex := "th"
    ctxhex := "ch"
    witnessReservedValue := List.replicate 32 0
    witnessMerkleRoot := List.replicate 32 0
    block :=
      { txids := [{ txid := [1], wtxid := [1], segwit := false },
                  { txid := [2], wtxid := [2], segwit := false }]
        header := "hdr"
        merkle_root := (hashPair [1] [2]).reverse
        height := 7 } }

example :
    extractProofInfoInner pgdTwo =
      .ok { txId := [2]
            txId0Reversed := [1]
            txIdReversed := [2]
            wtxidR := [2]
            wtxid := [2]
            height := 7
            txHex := "th"
            header := "hdr"
            txIndex := 1
            treeDepth := 1
            wproof := [some [1]]
            merkleRoot := hashPair [1] [2]
            computedWtxidRoot := none
            witnessReservedValue := none
            witnessMerkleRoot := none
            ctxHex := "ch"
            cproof := [some [2]]
            segwit := false } := by
  have hroot2 : generateMerkleRoot [[1], [2]] = hashPair [1] [2] := by
    rw [generateMerkleRoot, dif_neg (by simp)]
    simp [ensureEven, combinePairs]
  have htree2 : generateMerkleTree [[1], [2]] = [[[1], [2]], [hashPair [1] [2]]] := by
    rw [generateMerkleTree, if_neg (by simp), merkleLevels_ge2 _ (by simp)]
    rw [show combinePairs (ensureEven [[1], [2]]) = [hashPair [1] [2]] from by
      simp [ensureEven, combinePairs]]
    rw [merkleLevels_single _ (by simp)]
    simp [ensureEven]
  have hre : reverseAndEven (pgdTwo.block.txids.map (·.txid)) = [[1], [2]] := by
    simp [pgdTwo, reverseAndEven, ensureEven]
  simp only [extractProofInfoInner]
  simp only [pgdTwo] at hre ⊢
  simp only [hre]
  simp only [List.find?, List.findIdx?]
  simp only [generateMerkleProof, htree2, hroot2]
  simp [jsFalsyAt, jsFindIndex, List.findIdx?, buildProofAux, jsGet, Int.fdiv,
        List.reverse_reverse, pgdTwo, reverseAndEven, ensureEven]

end Styx.Extract
